import Mathlib

/-!
Verification development for the cnpy npy/npz codec (allebacco/cnpy,
files cnpy.h / cnpy.cpp).

Modelling conventions (the shallow embedding):
* Byte buffers, files and header strings are `List Nat` (byte values).
* The host is little-endian x86-64: `size_t` is 64-bit, `unsigned int`
  is 32 bits, `int` is 32 bits, `BigEndianTest()` returns the byte
  value of the character that is written `<`.  Where the C++ code
  performs arithmetic in one of those narrower types the model takes
  the value modulo the corresponding power of two at that spot.
* A C `assert` is modelled as a fatal error (the semantics of a debug
  build, which is the build in which the library's own assertions are
  meaningful); every C++ `throw` is an `Except.error`.
* `std::string::find` returning `npos` flows into `int` variables and
  back into `size_t` positions; the model follows that arithmetic
  exactly (`npos + 16` wraps to `15`, `int(npos)` narrows to `-1`, a
  negative `int` length widens to a huge `size_t` that `substr`
  clamps).  `substr` with a position past the size throws
  `std::out_of_range` (`.outOfRange`); an `operator[]` read past the
  null terminator is undefined behaviour, modelled as the fatal
  `.undefinedIndex` (theorems that quantify over arbitrary inputs
  exclude that error).
* The filesystem is passed explicitly: a file is `Option (List Nat)`
  (`none` = the file cannot be opened), an npz archive is an ordered
  list of (entry name, entry bytes) pairs, mirroring zip indices.
-/

/-- ASCII byte list of a Lean string literal (all source literals are ASCII). -/
def ascii (s : String) : List Nat := s.toList.map Char.toNat

/-- Fuel-driven digit extraction (structural recursion so that concrete
headers evaluate inside the kernel). -/
def decimalAux : Nat → Nat → List Nat
  | 0, _ => []
  | _ + 1, 0 => []
  | fuel + 1, n + 1 =>
    decimalAux fuel ((n + 1) / 10) ++ [(n + 1) % 10 + 48]

/-- Decimal digit bytes of `n`, most significant first: the model of
`tostring(i)` from cnpy.cpp (`std::stringstream << i` for an unsigned value). -/
def decimal (n : Nat) : List Nat :=
  if n = 0 then [48] else decimalAux n n

/-- `pat` matches at the head of `s` (byte-for-byte). -/
def matchesHere : List Nat → List Nat → Bool
  | [], _ => true
  | _ :: _, [] => false
  | a :: p, b :: s => a == b && matchesHere p s

/-- Worker for `strFind`. -/
def strFindAux (pat : List Nat) : List Nat → Nat → Option Nat
  | [], i => if matchesHere pat [] then some i else none
  | b :: s, i => if matchesHere pat (b :: s) then some i else strFindAux pat s (i + 1)

/-- Model of `std::string::find`: index of the first occurrence of `pat`
in `s`, `none` for `npos`. -/
def strFind (s pat : List Nat) : Option Nat := strFindAux pat s 0

/-- Model of `std::string::substr(pos, len)` on in-range arguments. -/
def substrL (s : List Nat) (pos len : Nat) : List Nat := (s.drop pos).take len

/-- Model of `std::string::substr(pos)` (to the end) on in-range arguments. -/
def dropL (s : List Nat) (pos : Nat) : List Nat := s.drop pos

/-- `true` on ASCII decimal digit bytes. -/
def isDigitByte (c : Nat) : Bool := 48 ≤ c && c ≤ 57

/-- Model of `std::stoull` on the strings the library feeds it: skip
leading spaces, then read a nonempty run of decimal digits (ignoring
whatever follows); `none` models the `std::invalid_argument` throw. -/
def parseNat (s : List Nat) : Option Nat :=
  let t := (s.dropWhile (· == 32)).takeWhile isDigitByte
  if t.isEmpty then none
  else some (t.foldl (fun a c => a * 10 + (c - 48)) 0)

/-- Errors: each constructor corresponds to one fatal exit of the C++
code (a `throw`, a failed `assert`, or a short read). -/
inductive Err where
  | shortRead        -- parse_npy_header: "failed fread" (fewer than 11 bytes)
  | noNewline        -- parse_npy_header: fgets finds no newline / NULL
  | assertEndian     -- parse_npy_header: assert(littleEndian)
  | bigEndian        -- parseDictHeader: "Big endian data can note be managed."
  | undefinedIndex   -- an out-of-bounds operator[] read (undefined behaviour)
  | stoullFail       -- std::stoull on a digit-free string
  | assertFortran    -- npy_save_data: assert(!fortran_order)
  | wordSizeMismatch -- npy_save_data: assert(word_size == elemSize)
  | misdimensioned   -- npy_save_data: "append misdimensioned data"
  | misshaped        -- npy_save_data: "append misshaped data"
  | readError        -- payload short read ("npy file read error")
  | zipShortHeader   -- load_the_npy_file(zip): short header read
  | zipShortDict     -- load_the_npy_file(zip): short dict read
  | cannotOpen       -- npz_load: "Error opening npz file"
  | notFoundVar      -- npz_load(varname): "Variable name not found"
  | outOfRange       -- std::string::erase(pos) with pos > size()
  | unableOverwrite  -- npz_save_data: "Unable to overwrite"
  deriving DecidableEq

/-- The cnpy::Type enumeration (named `CnpyType` because `Type` is a
Lean keyword). -/
inductive CnpyType where
  | Void | Int8 | Int16 | Int32 | Int64
  | Uint8 | Uint16 | Uint32 | Uint64
  | Float | Double | LongDouble
  | ComplexFloat | ComplexDouble | ComplexLongDouble
  | Bool
  deriving DecidableEq

/-- `map_type` from cnpy.cpp, as the ASCII byte of the returned char. -/
def map_type : CnpyType → Nat
  | .Int8 | .Int16 | .Int32 | .Int64 => 105        -- i
  | .Uint8 | .Uint16 | .Uint32 | .Uint64 => 117    -- u
  | .Float | .Double | .LongDouble => 102          -- f
  | .ComplexFloat | .ComplexDouble | .ComplexLongDouble => 99 -- c
  | .Bool => 98                                    -- b
  | .Void => 63                                    -- ?

/-- `sizeof(T)` for each supported element type on x86-64, as passed by
the `npy_save` / `npz_save` templates (`Void` has no C++ counterpart). -/
def elemSizeOf : CnpyType → Nat
  | .Void => 0
  | .Int8 | .Uint8 | .Bool => 1
  | .Int16 | .Uint16 => 2
  | .Int32 | .Uint32 | .Float => 4
  | .Int64 | .Uint64 | .Double | .ComplexFloat => 8
  | .LongDouble | .ComplexDouble => 16
  | .ComplexLongDouble => 32

/-- The `for(i=1; i<ndims; i++) dict += ", " + tostring(shape[i]);` loop
of `create_npy_header`, applied to `shape.tail`. -/
def shapeTail : List Nat → List Nat
  | [] => []
  | d :: rest => [44, 32] ++ decimal d ++ shapeTail rest

/-- The textual shape tuple body written between `(` and `)` by
`create_npy_header`: first dimension, the comma-separated rest, and the
trailing comma of the rank-1 case. -/
def shapeBody (shape : List Nat) : List Nat :=
  decimal (shape.headD 0) ++ shapeTail shape.tail ++
    (if shape.length == 1 then [44] else [])

/-- The dictionary text of `create_npy_header` before padding
(`{'descr': '<Tn', 'fortran_order': False, 'shape': (...), }`).
The brace bytes are 123 and 125. -/
def dictBase (dtype : CnpyType) (elementSize : Nat) (shape : List Nat) : List Nat :=
  [123] ++ ascii (r"'descr': '")
    ++ [60]                 -- BigEndianTest() on a little-endian host
    ++ [map_type dtype]
    ++ decimal elementSize
    ++ ascii (r"', 'fortran_order': False, 'shape': (")
    ++ shapeBody shape
    ++ ascii (r"), ") ++ [125]

/-- `create_npy_header` from cnpy.cpp: the padded dictionary prefixed by
the 10-byte preamble.  `remainder = 16 - (10 + dict.size()) % 16`; the
dictionary gains `remainder - 1` spaces and one newline; `dictSize` is
stored as a little-endian `uint16_t`. -/
def create_npy_header (dtype : CnpyType) (elementSize : Nat) (shape : List Nat) :
    List Nat :=
  let dict0 := dictBase dtype elementSize shape
  let remainder := 16 - (10 + dict0.length) % 16
  let dict := dict0 ++ List.replicate (remainder - 1) 32 ++ [10]
  let ds := dict.length % 65536
  [147, 78, 85, 77, 80, 89, 1, 0, ds % 256, ds / 256 % 256] ++ dict

/-- Result of header decoding: `word_size`, `shape`, `fortran_order`. -/
structure ParsedHeader where
  wordSize : Nat
  shape : List Nat
  fortranOrder : Bool
  deriving DecidableEq

/-- The shape-reading loop shared by `parse_npy_header` and
`parseDictHeader`: `ndims` iterations of
`loc1 = str_shape.find(","); shape[i] = stoull(str_shape.substr(0,loc1));
str_shape = str_shape.substr(loc1+1);` with `int loc1`.  When `find`
returns `npos`, `int(npos)` narrows to `-1`: `substr(0, -1)` widens the
length back to a huge `size_t` and takes the whole string, and
`loc1 + 1 = 0` leaves the string unchanged. -/
def parseShapeLoop : List Nat → Nat → Except Err (List Nat)
  | _, 0 => .ok []
  | s, n + 1 =>
    match strFind s [44] with
    | some l =>
      match parseNat (substrL s 0 l) with
      | none => .error .stoullFail
      | some v => (parseShapeLoop (dropL s (l + 1)) n).map (fun r => v :: r)
    | none =>
      match parseNat s with
      | none => .error .stoullFail
      | some v => (parseShapeLoop s n).map (fun r => v :: r)

/-- The dictionary-text decoder shared (as duplicated code) by
`parse_npy_header` (which runs it on the header line after the opening
brace, failing the `assert(littleEndian)` with `endianErr = .assertEndian`)
and `parseDictHeader` (which runs it on the full dictionary and throws
`endianErr = .bigEndian`).  Field by field it mirrors cnpy.cpp lines
200-235 / 239-275, including the behaviour when a `find` returns
`npos`: the positions are stored in `int` variables, so on x86-64
`npos + 16` wraps to `15` in `size_t`, `npos + 9` wraps to `8`,
`int(npos)` narrows to `-1`, and a negative `int` length handed to
`substr` widens back to a huge `size_t` that `substr` clamps to the
rest of the string.  `substr(pos, ...)` throws `std::out_of_range`
when `pos` exceeds the size (`.outOfRange`); reading `dict[pos]` past
the null terminator, or `str_shape[str_shape.size() - 1]` on an empty
`str_shape`, is an out-of-bounds read — undefined behaviour — modelled
as the fatal `.undefinedIndex`. -/
def parseDictCore (endianErr : Err) (d : List Nat) : Except Err ParsedHeader :=
  -- loc1 = d.find("fortran_order") + 16 : on npos, wraps to 15
  let f16 := match strFind d (ascii (r"fortran_order")) with
    | some i => i + 16
    | none => 15
  -- fortran_order = d.substr(loc1, 5) == "True": substr throws if loc1 > size
  if d.length < f16 then .error .outOfRange
  else
    let fortran := substrL d f16 5 == ascii (r"True")
    -- loc1 = int(d.find("(")), loc2 = int(d.find(")")): npos narrows to -1;
    -- str_shape = d.substr(loc1 + 1, loc2 - loc1 - 1): a negative int
    -- length widens to a huge size_t, which substr clamps to the rest
    let strShape := match strFind d [40], strFind d [41] with
      | some lp, some rp =>
        if rp < lp + 1 then dropL d (lp + 1)
        else substrL d (lp + 1) (rp - lp - 1)
      | some lp, none => dropL d (lp + 1)
      | none, some rp => substrL d 0 rp
      | none, none => d
    -- str_shape[str_shape.size() - 1]: out-of-bounds read when empty
    match strShape.getLast? with
    | none => .error .undefinedIndex
    | some last =>
      let ndims := if last == 44 then 1 else strShape.count 44 + 1
      match parseShapeLoop strShape ndims with
      | .error e => .error e
      | .ok shape =>
        -- loc1 = d.find("descr") + 9 : on npos, wraps to 8
        let d9 := match strFind d (ascii (r"descr")) with
          | some i => i + 9
          | none => 8
        -- d[loc1]: past the null terminator the read is out of bounds
        if d.length < d9 then .error .undefinedIndex
        else
          let c := d.getD d9 0  -- d[size()] reads the null terminator
          if c == 60 || c == 124 then
            -- str_ws = d.substr(loc1 + 2): substr throws if loc1 + 2 > size
            if d.length < d9 + 2 then .error .outOfRange
            else
              let strWs := dropL d (d9 + 2)
              -- loc2 = int(strWs.find("'")): npos narrows to -1, and
              -- substr(0, -1) widens back to a huge size_t: whole rest
              let wsStr := match strFind strWs [39] with
                | some l2 => substrL strWs 0 l2
                | none => strWs
              match parseNat wsStr with
              | none => .error .stoullFail
              | some ws => .ok ⟨ws, shape, fortran⟩
          else .error endianErr

/-- `parseDictHeader` from cnpy.cpp (big-endian input is an explicit
`throw`). -/
def parseDictHeader (dict : List Nat) : Except Err ParsedHeader :=
  parseDictCore .bigEndian dict

/-- `parse_npy_header(FILE*)` from cnpy.cpp: `fread` 11 bytes (the
10-byte preamble plus the dictionary's opening brace), then `fgets`
up to 255 further bytes stopping after the first newline, then the
dictionary-text decode with `assert(littleEndian)`.  Returns the parse
result together with the unconsumed rest of the file. -/
def parse_npy_header (file : List Nat) : Except Err (ParsedHeader × List Nat) :=
  if file.length < 11 then .error .shortRead
  else
    let rest := file.drop 11
    let window := rest.take 255
    let nl := window.findIdx (· == 10)
    if nl = window.length then .error .noNewline
    else
      let headerLine := window.take (nl + 1)
      match parseDictCore .assertEndian headerLine with
      | .error e => .error e
      | .ok ph => .ok (ph, file.drop (11 + nl + 1))

/-- The NpArray container (cnpy.h).  `mData = none` models a null data
pointer. -/
structure NpArr where
  mData : Option (List Nat)
  mShape : List Nat
  mElemSize : Nat
  mDataSize : Nat
  mIsFortranOrder : Bool
  mDtype : CnpyType
  mHasDataOwnership : Bool
  deriving DecidableEq

/-- The default constructor `NpArray()`. -/
def NpArr.empty : NpArr :=
  { mData := none, mShape := [], mElemSize := 0, mDataSize := 0,
    mIsFortranOrder := false, mDtype := .Void, mHasDataOwnership := true }

/-- The shape constructor `NpArray(shape, elSize, dataType, isFortran, data)`:
`mDataSize = accumulate(shape, elSize, multiplies)` — accumulated in
`size_t`, so exact below 2^64, where every theorem below keeps it —
buffer allocated and (here) filled with the caller-supplied bytes. -/
def NpArr.mkShaped (shape : List Nat) (elSize : Nat) (dataType : CnpyType)
    (isFortran : Bool) (data : List Nat) : NpArr :=
  { mData := some data, mShape := shape, mElemSize := elSize,
    mDataSize := shape.foldl (· * ·) elSize,
    mIsFortranOrder := isFortran, mDtype := dataType,
    mHasDataOwnership := true }

/-- `NpArray::size()`. -/
def NpArr.size (a : NpArr) : Nat := a.mDataSize

/-- `NpArray::numElements()` (`mDataSize / mElemSize`). -/
def NpArr.numElements (a : NpArr) : Nat := a.mDataSize / a.mElemSize

/-- `NpArray::move(NpArray& other)` (cnpy.h lines 267-282), acting on an
already-initialised destination `dest` (the move-assignment case).  The
source code copies `mData`, `mShape`, `mElemSize`, `mIsFortranOrder`
and `mHasDataOwnership` and empties the source — it never touches
`mDataSize` or `mDtype`, so the destination keeps its previous values
of those two fields.  Returns (new destination, emptied source);
the moved-from `std::vector` shape is modelled as left empty. -/
def NpArr.moveFrom (dest src : NpArr) : NpArr × NpArr :=
  ({ mData := src.mData, mShape := src.mShape, mElemSize := src.mElemSize,
     mDataSize := dest.mDataSize, mIsFortranOrder := src.mIsFortranOrder,
     mDtype := dest.mDtype, mHasDataOwnership := src.mHasDataOwnership },
   { mData := none, mShape := [], mElemSize := 0, mDataSize := src.mDataSize,
     mIsFortranOrder := false, mDtype := src.mDtype,
     mHasDataOwnership := false })

/-- The move constructor `NpArray(NpArray&&)`: the destination's fields
are uninitialised when `move(other)` runs, so the resulting `mDataSize`
and `mDtype` are whatever indeterminate values the object started with;
they are passed in explicitly. -/
def NpArr.moveConstruct (src : NpArr) (uninitDataSize : Nat)
    (uninitDtype : CnpyType) : NpArr × NpArr :=
  NpArr.moveFrom
    { mData := none, mShape := [], mElemSize := 0, mDataSize := uninitDataSize,
      mIsFortranOrder := false, mDtype := uninitDtype,
      mHasDataOwnership := false } src

/-- `load_the_npy_file(FILE* fp)` from cnpy.cpp: parse the header, build
`NpArray arr(shape, word_size, fortran_order)` and `fread` the payload.
The constructor call in the source passes the parsed `fortran_order`
where the `dataType` parameter of the only matching constructor sits
(the decoder never extracts the dtype character — cnpy.cpp line 230 is
commented out), so the loaded array's `mDtype` carries no information
from the file; it is modelled as `Void` (the enumeration's zero value).
`fread(arr.data(), word_size, num, fp)` reads whole elements, so the
read succeeds iff `num` elements are available. -/
def load_the_npy_file_fp (file : List Nat) : Except Err NpArr :=
  match parse_npy_header file with
  | .error e => .error e
  | .ok (ph, rest) =>
    let arr0 := NpArr.mkShaped ph.shape ph.wordSize .Void ph.fortranOrder []
    let num := arr0.numElements
    if min num (rest.length / ph.wordSize) ≠ num then .error .readError
    else .ok { arr0 with mData := some (rest.take (ph.wordSize * num)) }

/-- `cnpy::npy_load`: a file that cannot be opened (`none`) makes it
print an error and return the default `NpArray()`. -/
def npy_load (file : Option (List Nat)) : Except Err NpArr :=
  match file with
  | none => .ok NpArr.empty
  | some bytes => load_the_npy_file_fp bytes

/-- `nels = std::accumulate(shape.cbegin(), shape.cend(), 1U, multiplies<size_t>())`
from `npy_save_data`: the accumulator is `unsigned int`, so every step
truncates modulo 2^32. -/
def nelsU (shape : List Nat) : Nat :=
  shape.foldl (fun a d => a * d % 4294967296) 1

/-- The `for(i=1; i<shape.size(); ++i) if(shape[i] != tmp_shape[i]) throw`
check of `npy_save_data` (ranks already known equal). -/
def trailingMismatch (shape tmpShape : List Nat) : Bool :=
  ((shape.drop 1).zip (tmpShape.drop 1)).any (fun p => !(p.1 == p.2))

/-- `cnpy::npy_save_data` (cnpy.cpp lines 348-396).  `existing` is the
content of `fname` if it can be opened (`mode` 97 = 'a', 119 = 'w').
Returns (outcome, final file content): on the append-mismatch errors
the function throws before any write, leaving the file unchanged.
In the append branch the header is re-encoded for the grown shape
(`tmp_shape[0] += shape[0]` in `size_t` arithmetic) and rewritten at
offset 0 — overwriting the first bytes of the old content if the new
header is longer — and the payload (`nels` elements of `elemSize`
bytes) is appended at the end. -/
def npy_save_data (existing : Option (List Nat)) (data : List Nat)
    (dtype : CnpyType) (elemSize : Nat) (shape : List Nat) (mode : Nat) :
    Except Err Unit × Option (List Nat) :=
  match (if mode = 97 then existing else none) with
  | some content =>
    match parse_npy_header content with
    | .error e => (.error e, some content)
    | .ok (ph, _) =>
      if ph.fortranOrder then (.error .assertFortran, some content)
      else if ph.wordSize ≠ elemSize then (.error .wordSizeMismatch, some content)
      else if ph.shape.length ≠ shape.length then (.error .misdimensioned, some content)
      else if trailingMismatch shape ph.shape then (.error .misshaped, some content)
      else
        let tmpShape := ((ph.shape.headD 0 + shape.headD 0) % 18446744073709551616)
          :: ph.shape.tail
        let header := create_npy_header dtype elemSize tmpShape
        let afterHeader := header ++ content.drop header.length
        (.ok (), some (afterHeader ++ data.take (elemSize * nelsU shape)))
  | none =>
    let header := create_npy_header dtype elemSize shape
    (.ok (), some (header ++ data.take (elemSize * nelsU shape)))

/-- `load_the_npy_file(Handler<zip_file>&)` from cnpy.cpp: read exactly
10 preamble bytes (`sizeof(NpHeader)`), fail if short; read exactly
`dictSize` bytes (the little-endian `uint16` at preamble offset 8) as
the dictionary, fail if short; `parseDictHeader`; then read the
`arr.size()` payload bytes, fail if short.  The preamble's magic bytes
are never validated. -/
def load_the_npy_file_zip (entry : List Nat) : Except Err NpArr :=
  if entry.length < 10 then .error .zipShortHeader
  else
    let ds := entry.getD 8 0 + 256 * entry.getD 9 0
    let rest := entry.drop 10
    if rest.length < ds then .error .zipShortDict
    else
      match parseDictHeader (rest.take ds) with
      | .error e => .error e
      | .ok ph =>
        let arr0 := NpArr.mkShaped ph.shape ph.wordSize .Void ph.fortranOrder []
        let avail := rest.drop ds
        if avail.length < arr0.size then .error .readError
        else .ok { arr0 with mData := some (avail.take arr0.size) }

/-- An npz archive in zip-index order: (stored entry name, entry bytes). -/
abbrev Archive := List (String × List Nat)

/-- `cnpy::npz_save_data` (cnpy.cpp lines 582-624): mode 'w' on an
existing archive removes the file first; the archive is opened with
ZIP_CREATE (an absent file becomes an empty archive); an entry whose
name equals `name + ".npy"` is deleted; the new entry — npy header
followed by `dataSize` payload bytes, where
`dataSize = accumulate(shape, elemSize, multiplies)` is stored into a
C `int` (cnpy.cpp line 609; exact below 2^31, the bound every theorem
about this function carries) — is added
at the end of the index order. -/
def npz_save_data (archive : Option Archive) (name : String) (data : List Nat)
    (dtype : CnpyType) (elemSize : Nat) (shape : List Nat) (mode : Nat) :
    Except Err Archive :=
  let fname := name ++ ".npy"
  let base : Archive := if mode = 119 then [] else archive.getD []
  let base' :=
    match base.findIdx? (fun e => e.1 = fname) with
    | some i => base.eraseIdx i
    | none => base
  let header := create_npy_header dtype elemSize shape
  let dataSize := shape.foldl (· * ·) elemSize
  .ok (base' ++ [(fname, header ++ data.take dataSize)])

/-- The key derivation of `cnpy::npz_load` (cnpy.cpp line 645):
`name.erase(name.size() - 4)` — `size_t` subtraction wraps for names
shorter than 4 characters, and `std::string::erase` throws
`std::out_of_range` when the position exceeds the size. -/
def stripLast4 (name : String) : Except Err String :=
  let n := name.length
  -- `name.size() - 4` in `size_t` arithmetic, which wraps for n < 4.
  -- For every n in the range of `size_t` (n < 2^64) this equals
  -- (n + 2^64 - 4) % 2^64; see `stripLast4_pos_eq`.
  let pos := if 4 ≤ n then n - 4 else n + 18446744073709551612
  if n < pos then .error .outOfRange else .ok (name.take pos)

theorem stripLast4_pos_eq (n : Nat) (h : n < 18446744073709551616) :
    (if 4 ≤ n then n - 4 else n + 18446744073709551612) =
      (n + (18446744073709551616 - 4)) % 18446744073709551616 := by
  split <;> omega

/-- Worker for `npz_load`: iterate the entries in zip-index order;
`std::map::insert` does not replace an existing key. -/
def npzLoadAll : Archive → List (String × NpArr) →
    Except Err (List (String × NpArr))
  | [], acc => .ok acc
  | (n, bytes) :: rest, acc =>
    match stripLast4 n with
    | .error e => .error e
    | .ok key =>
      match load_the_npy_file_zip bytes with
      | .error e => .error e
      | .ok arr =>
        npzLoadAll rest
          (if acc.any (fun p => p.1 = key) then acc else acc ++ [(key, arr)])

/-- `cnpy::npz_load(fname)` (whole archive): error when the archive
cannot be opened, otherwise load every entry. -/
def npz_load (archive : Option Archive) : Except Err (List (String × NpArr)) :=
  match archive with
  | none => .error .cannotOpen
  | some entries => npzLoadAll entries []

/-- `cnpy::npz_load(fname, varname)`: locate `varname + ".npy"` by name,
error if the archive cannot be opened or the name is absent. -/
def npz_load_var (archive : Option Archive) (varname : String) :
    Except Err NpArr :=
  match archive with
  | none => .error .cannotOpen
  | some entries =>
    match entries.find? (fun e => e.1 = varname ++ ".npy") with
    | none => .error .notFoundVar
    | some e => load_the_npy_file_zip e.2

/-! ### Basic facts about the byte-string helpers -/

theorem decimalAux_eq_digits :
    ∀ (fuel n : Nat), n ≤ fuel →
      decimalAux fuel n = (Nat.digits 10 n).reverse.map (fun d => d + 48) := by
  intro fuel
  induction fuel with
  | zero =>
    intro n hn
    have : n = 0 := by omega
    subst this
    simp [decimalAux]
  | succ fuel ih =>
    intro n hn
    cases n with
    | zero => simp [decimalAux]
    | succ m =>
      rw [decimalAux]
      rw [ih ((m + 1) / 10) (by
        have := Nat.div_lt_self (Nat.succ_pos m) (by norm_num : (1 : Nat) < 10)
        omega)]
      rw [Nat.digits_def' (by norm_num : (1 : Nat) < 10) (Nat.succ_pos m)]
      simp

theorem decimal_eq_digits (n : Nat) :
    decimal n = if n = 0 then [48]
      else (Nat.digits 10 n).reverse.map (fun d => d + 48) := by
  unfold decimal
  split
  · rfl
  · exact decimalAux_eq_digits n n (le_refl n)

theorem decimal_ne_nil (n : Nat) : decimal n ≠ [] := by
  rw [decimal_eq_digits]
  split
  · simp
  · simp [Nat.digits_ne_nil_iff_ne_zero, *]

theorem mem_decimal {n c : Nat} (h : c ∈ decimal n) : 48 ≤ c ∧ c ≤ 57 := by
  rw [decimal_eq_digits] at h
  split at h
  · simp at h; omega
  · simp only [List.mem_map, List.mem_reverse] at h
    obtain ⟨d, hd, rfl⟩ := h
    have := Nat.digits_lt_base (by norm_num) hd
    omega

theorem decimal_head : ∀ n : Nat, ∃ c t, decimal n = c :: t ∧ 48 ≤ c ∧ c ≤ 57 := by
  intro n
  rcases h : decimal n with _ | ⟨c, t⟩
  · exact absurd h (decimal_ne_nil n)
  · exact ⟨c, t, rfl, mem_decimal (h ▸ List.mem_cons_self c t)⟩

theorem decimal_getLast? : ∀ n : Nat, ∃ c, (decimal n).getLast? = some c ∧
    48 ≤ c ∧ c ≤ 57 := by
  intro n
  rcases h : (decimal n).getLast? with _ | c
  · rw [List.getLast?_eq_none_iff] at h
    exact absurd h (decimal_ne_nil n)
  · refine ⟨c, rfl, @mem_decimal n c ?_⟩
    obtain ⟨hne, hc⟩ := List.mem_getLast?_eq_getLast (show c ∈ (decimal n).getLast? from h)
    exact hc ▸ List.getLast_mem hne

theorem decimal_length_le {n : Nat} (h : n < 18446744073709551616) :
    (decimal n).length ≤ 20 := by
  rw [decimal_eq_digits]
  split
  · simp
  · simp only [List.length_map, List.length_reverse]
    by_contra hlen
    have h21 : 21 ≤ (Nat.digits 10 n).length := by omega
    have hle : (10 : Nat) ^ 21 ≤ 10 ^ (Nat.digits 10 n).length :=
      Nat.pow_le_pow_right (by norm_num) h21
    have := Nat.base_pow_length_digits_le 10 n (by norm_num) (by assumption)
    omega

theorem foldl_digits_reverse (L : List Nat) :
    ((L.reverse.map (fun d => d + 48)).foldl (fun a c => a * 10 + (c - 48)) 0)
      = Nat.ofDigits 10 L := by
  induction L with
  | nil => simp [Nat.ofDigits]
  | cons d T ih =>
    simp only [List.reverse_cons, List.map_append, List.foldl_append, ih,
      List.map_cons, List.map_nil, List.foldl_cons, List.foldl_nil,
      Nat.ofDigits_cons]
    have : d + 48 - 48 = d := by omega
    rw [this]
    ring

theorem foldl_decimal (n : Nat) :
    (decimal n).foldl (fun a c => a * 10 + (c - 48)) 0 = n := by
  rw [decimal_eq_digits]
  split
  · simp; omega
  · rw [foldl_digits_reverse, Nat.ofDigits_digits]

theorem takeWhile_digits_self (L : List Nat) (h : ∀ c ∈ L, isDigitByte c) :
    L.takeWhile isDigitByte = L := by
  induction L with
  | nil => rfl
  | cons c t ih =>
    rw [List.takeWhile_cons]
    rw [h c (List.mem_cons_self c t)]
    simp only [ite_true]
    rw [ih (fun x hx => h x (List.mem_cons_of_mem c hx))]

theorem parseNat_decimal (n : Nat) : parseNat (decimal n) = some n := by
  unfold parseNat
  obtain ⟨c, t, hct, hc1, hc2⟩ := decimal_head n
  have hdrop : (decimal n).dropWhile (· == 32) = decimal n := by
    rw [hct, List.dropWhile_cons]
    have : (c == 32) = false := by simp; omega
    simp [this]
  rw [hdrop, takeWhile_digits_self _ (fun x hx => by
    have := mem_decimal hx; simp [isDigitByte]; omega)]
  have hne : (decimal n).isEmpty = false := by
    rw [hct]; rfl
  simp only [hne, Bool.false_eq_true, if_false, foldl_decimal]

theorem parseNat_space_decimal (n : Nat) : parseNat (32 :: decimal n) = some n := by
  unfold parseNat
  rw [List.dropWhile_cons]
  simp only [beq_self_eq_true, ite_true]
  obtain ⟨c, t, hct, hc1, hc2⟩ := decimal_head n
  have hdrop : (decimal n).dropWhile (· == 32) = decimal n := by
    rw [hct, List.dropWhile_cons]
    have : (c == 32) = false := by simp; omega
    simp [this]
  rw [hdrop, takeWhile_digits_self _ (fun x hx => by
    have := mem_decimal hx; simp [isDigitByte]; omega)]
  have hne : (decimal n).isEmpty = false := by
    rw [hct]; rfl
  simp only [hne, Bool.false_eq_true, if_false, foldl_decimal]

/-! ### Facts about `matchesHere` and `strFind` -/

theorem matchesHere_nil (s : List Nat) : matchesHere [] s = true := by
  cases s <;> rfl

theorem matchesHere_cons_nil (a : Nat) (p : List Nat) :
    matchesHere (a :: p) [] = false := rfl

theorem matchesHere_self_append (pat t : List Nat) :
    matchesHere pat (pat ++ t) = true := by
  induction pat with
  | nil => exact matchesHere_nil t
  | cons a p ih => simp [matchesHere, ih]

theorem matchesHere_head_ne {a b : Nat} (p s : List Nat) (h : a ≠ b) :
    matchesHere (a :: p) (b :: s) = false := by
  simp [matchesHere]
  intro hab
  exact absurd hab h

theorem matchesHere_second_ne {a a' b b' : Nat} (p s : List Nat) (h : b ≠ b') :
    matchesHere (a :: b :: p) (a' :: b' :: s) = false := by
  simp [matchesHere]
  intro _ hb
  exact absurd hb h

theorem strFindAux_eq_some (pat : List Nat) :
    ∀ (k : Nat) (s : List Nat) (i : Nat),
      matchesHere pat (s.drop k) = true →
      (∀ j, j < k → matchesHere pat (s.drop j) = false) →
      strFindAux pat s i = some (i + k) := by
  intro k
  induction k with
  | zero =>
    intro s i hk _
    simp only [List.drop_zero] at hk
    cases s with
    | nil => simp [strFindAux, hk]
    | cons b t => simp [strFindAux, hk]
  | succ k ih =>
    intro s i hk hlt
    have h0 : matchesHere pat s = false := by
      have := hlt 0 (Nat.succ_pos k)
      simpa using this
    cases s with
    | nil =>
      rw [List.drop_nil] at hk
      simp [hk] at h0
    | cons b t =>
      show strFindAux pat (b :: t) i = some (i + (k + 1))
      rw [strFindAux, h0]
      simp only [Bool.false_eq_true, if_false]
      have := ih t (i + 1)
        (by simpa using hk)
        (fun j hj => by
          have := hlt (j + 1) (by omega)
          simpa using this)
      rw [this]
      congr 1
      omega

theorem strFind_eq_some {s pat : List Nat} {k : Nat}
    (hk : matchesHere pat (s.drop k) = true)
    (hlt : ∀ j, j < k → matchesHere pat (s.drop j) = false) :
    strFind s pat = some k := by
  have := strFindAux_eq_some pat k s 0 hk hlt
  simpa [strFind] using this

theorem strFindAux_eq_none (pat : List Nat) :
    ∀ (s : List Nat) (i : Nat),
      (∀ j, matchesHere pat (s.drop j) = false) →
      strFindAux pat s i = none := by
  intro s
  induction s with
  | nil =>
    intro i h
    have := h 0
    simp only [List.drop_nil] at this
    simp [strFindAux, this]
  | cons b t ih =>
    intro i h
    have h0 := h 0
    simp only [List.drop_zero] at h0
    rw [strFindAux, h0]
    simp only [Bool.false_eq_true, if_false]
    exact ih (i + 1) (fun j => by simpa using h (j + 1))

theorem noMatchRegion {pat : List Nat} {a : Nat} {p' : List Nat}
    (hpat : pat = a :: p') (P Q : List Nat) (hP : ∀ x ∈ P, x ≠ a) :
    ∀ j, j < P.length → matchesHere pat ((P ++ Q).drop j) = false := by
  intro j hj
  rw [List.drop_append_eq_append_drop, Nat.sub_eq_zero_of_le (le_of_lt hj),
    List.drop_zero, List.drop_eq_getElem_cons hj, hpat, List.cons_append]
  exact matchesHere_head_ne _ _ (Ne.symm (hP _ (List.getElem_mem hj)))

theorem noMatchMid {pat : List Nat} {a : Nat} {p' : List Nat}
    (hpat : pat = a :: p') (G P Q : List Nat) (hP : ∀ x ∈ P, x ≠ a) :
    ∀ j, G.length ≤ j → j < G.length + P.length →
      matchesHere pat ((G ++ (P ++ Q)).drop j) = false := by
  intro j h1 h2
  obtain ⟨i, rfl⟩ : ∃ i, j = G.length + i := ⟨j - G.length, by omega⟩
  rw [List.drop_append]
  exact noMatchRegion hpat P Q hP i (by omega)

theorem strFind_single_append {P Q : List Nat} {c : Nat} (hP : ∀ x ∈ P, x ≠ c) :
    strFind (P ++ c :: Q) [c] = some P.length := by
  apply strFind_eq_some
  · rw [List.drop_append_eq_append_drop, Nat.sub_self, List.drop_length,
      List.nil_append, List.drop_zero]
    exact matchesHere_self_append [c] Q
  · intro j hj
    exact noMatchRegion rfl P (c :: Q) hP j hj

theorem strFind_single_none {P : List Nat} {c : Nat} (hP : ∀ x ∈ P, x ≠ c) :
    strFind P [c] = none := by
  apply strFindAux_eq_none
  intro j
  by_cases hj : j < P.length
  · have := @noMatchRegion [c] c [] rfl P [] hP j hj
    simpa using this
  · rw [List.drop_eq_nil_of_le (by omega)]
    exact matchesHere_cons_nil c []

theorem getD_append_length (P R : List Nat) (x d : Nat) :
    (P ++ x :: R).getD P.length d = x := by
  rw [List.getD_eq_getElem?_getD, List.getElem?_append_right (le_refl _),
    Nat.sub_self]
  simp

/-! ### Facts about the generated shape tuple text -/

theorem mem_shapeTail {l : List Nat} {x : Nat} (h : x ∈ shapeTail l) :
    (48 ≤ x ∧ x ≤ 57) ∨ x = 44 ∨ x = 32 := by
  induction l with
  | nil => simp [shapeTail] at h
  | cons d rest ih =>
    rw [shapeTail] at h
    rcases List.mem_append.mp h with h12 | h3
    · rcases List.mem_append.mp h12 with h1 | h2
      · simp only [List.mem_cons, List.not_mem_nil, or_false] at h1
        omega
      · exact Or.inl (mem_decimal h2)
    · exact ih h3

theorem mem_shapeBody {shape : List Nat} {x : Nat} (h : x ∈ shapeBody shape) :
    (48 ≤ x ∧ x ≤ 57) ∨ x = 44 ∨ x = 32 := by
  simp only [shapeBody, List.mem_append] at h
  rcases h with (h | h) | h
  · exact Or.inl (mem_decimal h)
  · exact mem_shapeTail h
  · split at h
    · simp at h; omega
    · simp at h

theorem decimal_count_comma (n : Nat) : (decimal n).count 44 = 0 :=
  List.count_eq_zero.mpr (fun h => by have := mem_decimal h; omega)

theorem shapeTail_count_comma (l : List Nat) : (shapeTail l).count 44 = l.length := by
  induction l with
  | nil => rfl
  | cons d rest ih =>
    rw [shapeTail, List.count_append, List.count_append, ih, decimal_count_comma]
    have : List.count 44 [44, 32] = 1 := by decide
    rw [this, List.length_cons]
    omega

theorem shapeBody_count_comma {shape : List Nat} (h2 : 2 ≤ shape.length) :
    (shapeBody shape).count 44 = shape.length - 1 := by
  have hne : (shape.length == 1) = false := by
    simp only [beq_eq_false_iff_ne, ne_eq]
    omega
  simp only [shapeBody, hne, Bool.false_eq_true, if_false, List.append_nil,
    List.count_append, decimal_count_comma, shapeTail_count_comma,
    List.length_tail]
  omega

theorem shapeBody_getLast?_rank1 (d : Nat) : (shapeBody [d]).getLast? = some 44 := by
  simp [shapeBody, shapeTail, List.getLast?_append]

theorem shapeTail_getLast?_digit {l : List Nat} (h : l ≠ []) :
    ∃ c, (shapeTail l).getLast? = some c ∧ 48 ≤ c ∧ c ≤ 57 := by
  induction l with
  | nil => exact absurd rfl h
  | cons d rest ih =>
    by_cases hr : rest = []
    · subst hr
      obtain ⟨c, hc, h1, h2⟩ := decimal_getLast? d
      refine ⟨c, ?_, h1, h2⟩
      have hst : shapeTail [d] = [44, 32] ++ decimal d := by simp [shapeTail]
      rw [hst, List.getLast?_append, hc]
      rfl
    · obtain ⟨c, hc, h1, h2⟩ := ih hr
      refine ⟨c, ?_, h1, h2⟩
      rw [shapeTail, List.getLast?_append, hc]
      rfl

theorem shapeBody_getLast?_rank2 {shape : List Nat} (h2 : 2 ≤ shape.length) :
    ∃ c, (shapeBody shape).getLast? = some c ∧ 48 ≤ c ∧ c ≤ 57 := by
  have hne : (shape.length == 1) = false := by
    simp only [beq_eq_false_iff_ne, ne_eq]
    omega
  have htne : shape.tail ≠ [] := by
    cases shape with
    | nil => simp at h2
    | cons a t =>
      cases t with
      | nil => simp at h2
      | cons b r => simp
  obtain ⟨c, hc, hc1, hc2⟩ := shapeTail_getLast?_digit htne
  refine ⟨c, ?_, hc1, hc2⟩
  simp only [shapeBody, hne, Bool.false_eq_true, if_false, List.append_nil]
  rw [List.getLast?_append, hc]
  rfl

/-! ### Correctness of the shape-reading loop on generated text -/

theorem parseShapeLoop_space_chunk :
    ∀ (rest : List Nat) (d : Nat),
      parseShapeLoop (32 :: (decimal d ++ shapeTail rest)) (rest.length + 1) =
        .ok (d :: rest) := by
  intro rest
  induction rest with
  | nil =>
    intro d
    have hfind : strFind (32 :: (decimal d ++ shapeTail [])) [44] = none := by
      apply strFind_single_none
      intro x hx
      simp only [shapeTail, List.append_nil, List.mem_cons] at hx
      rcases hx with rfl | hx
      · omega
      · have := mem_decimal hx; omega
    have hpn : parseNat (32 :: (decimal d ++ shapeTail [])) = some d := by
      simp only [shapeTail, List.append_nil]
      exact parseNat_space_decimal d
    show parseShapeLoop _ (0 + 1) = _
    rw [parseShapeLoop]
    simp only [hfind, hpn, parseShapeLoop, Except.map]
  | cons d2 rest' ih =>
    intro d
    have hsplit : 32 :: (decimal d ++ shapeTail (d2 :: rest')) =
        (32 :: decimal d) ++ 44 :: (32 :: (decimal d2 ++ shapeTail rest')) := by
      simp [shapeTail, List.append_assoc]
    have hlen : (32 :: decimal d).length = (decimal d).length + 1 := by
      rw [List.length_cons]
    have hfind : strFind (32 :: (decimal d ++ shapeTail (d2 :: rest'))) [44] =
        some ((decimal d).length + 1) := by
      rw [hsplit, ← hlen]
      apply strFind_single_append
      intro x hx
      simp only [List.mem_cons] at hx
      rcases hx with rfl | hx
      · omega
      · have := mem_decimal hx; omega
    have htake : substrL (32 :: (decimal d ++ shapeTail (d2 :: rest'))) 0
        ((decimal d).length + 1) = 32 :: decimal d := by
      rw [hsplit, ← hlen]
      simp only [substrL, List.drop_zero]
      exact List.take_left _ _
    have hdrop : dropL (32 :: (decimal d ++ shapeTail (d2 :: rest')))
        ((decimal d).length + 1 + 1) = 32 :: (decimal d2 ++ shapeTail rest') := by
      rw [hsplit, ← hlen]
      simp only [dropL]
      rw [List.drop_append]
      rfl
    show parseShapeLoop _ (rest'.length + 1 + 1) = _
    rw [parseShapeLoop]
    simp only [hfind, htake, hdrop, parseNat_space_decimal, ih, Except.map]

theorem parseShapeLoop_shapeBody {shape : List Nat} (h : shape ≠ []) :
    parseShapeLoop (shapeBody shape) shape.length = .ok shape := by
  cases shape with
  | nil => exact absurd rfl h
  | cons d t =>
    cases t with
    | nil =>
      have hbody : shapeBody [d] = decimal d ++ 44 :: [] := by
        simp [shapeBody, shapeTail]
      have hfind : strFind (shapeBody [d]) [44] = some (decimal d).length := by
        rw [hbody]
        exact strFind_single_append (fun x hx => by have := mem_decimal hx; omega)
      have htake : substrL (shapeBody [d]) 0 (decimal d).length = decimal d := by
        rw [hbody]
        simp only [substrL, List.drop_zero]
        exact List.take_left _ _
      have hdrop : dropL (shapeBody [d]) ((decimal d).length + 1) = [] := by
        rw [hbody]
        simp only [dropL]
        rw [List.drop_append]
        rfl
      show parseShapeLoop _ (0 + 1) = _
      rw [parseShapeLoop]
      simp only [hfind, htake, hdrop, parseNat_decimal, parseShapeLoop, Except.map]
    | cons d2 rest =>
      have hbody : shapeBody (d :: d2 :: rest) =
          decimal d ++ 44 :: (32 :: (decimal d2 ++ shapeTail rest)) := by
        simp [shapeBody, shapeTail, List.append_assoc]
      have hfind : strFind (shapeBody (d :: d2 :: rest)) [44] =
          some (decimal d).length := by
        rw [hbody]
        exact strFind_single_append (fun x hx => by have := mem_decimal hx; omega)
      have htake : substrL (shapeBody (d :: d2 :: rest)) 0 (decimal d).length =
          decimal d := by
        rw [hbody]
        simp only [substrL, List.drop_zero]
        exact List.take_left _ _
      have hdrop : dropL (shapeBody (d :: d2 :: rest)) ((decimal d).length + 1) =
          32 :: (decimal d2 ++ shapeTail rest) := by
        rw [hbody]
        simp only [dropL]
        rw [List.drop_append]
        rfl
      show parseShapeLoop _ (rest.length + 1 + 1) = _
      rw [parseShapeLoop]
      simp only [hfind, htake, hdrop, parseNat_decimal,
        parseShapeLoop_space_chunk, Except.map]

/-! ### Locating the dictionary fields in generated header text

The generated dictionary always has the form
`lead ++ "'descr': '" ++ [e, tc] ++ esD ++
 "', 'fortran_order': False, 'shape': (" ++ S ++ "), }" ++ pad`
with `lead` the opening brace (absent in the flat-file path, whose
header string starts after the brace), `e` the endianness byte, `tc`
the type character, `esD` the element-size digits and `S` the shape
tuple body.  The lemmas below compute each `find` of the decoder on
such text. -/

theorem lenA : (ascii (r"'descr': '")).length = 10 := rfl

theorem lenM : (ascii (r"', 'fortran_order': False, 'shape': (")).length = 37 := rfl

theorem lenF : (ascii (r"fortran_order")).length = 13 := rfl

theorem lenFalse : (ascii (r"False")).length = 5 := rfl

theorem lenD : (ascii (r"descr")).length = 5 := rfl

theorem splitM :
    ascii (r"', 'fortran_order': False, 'shape': (") =
      [39, 44, 32, 39] ++ ascii (r"fortran_order") ++ [39, 58, 32] ++
        ascii (r"False") ++ ascii (r", 'shape': ") ++ [40] := by decide

theorem splitA :
    ascii (r"'descr': '") = [39] ++ ascii (r"descr") ++ [39, 58, 32, 39] := by decide

theorem patF_cons :
    ascii (r"fortran_order") = 102 :: ascii (r"ortran_order") := by decide

theorem patD_cons :
    ascii (r"descr") = 100 :: ascii (r"escr") := by decide

theorem find_fortran (lead : List Nat) (e tc : Nat) (esD : List Nat)
    (R : List Nat)
    (hlead : ∀ x ∈ lead, x = 123)
    (he : e = 60 ∨ e = 62 ∨ e = 124)
    (hesDne : esD ≠ []) (hesD : ∀ x ∈ esD, 48 ≤ x ∧ x ≤ 57) :
    strFind (lead ++ ascii (r"'descr': '") ++ [e, tc] ++ esD
        ++ ascii (r"', 'fortran_order': False, 'shape': (") ++ R)
      (ascii (r"fortran_order")) = some (lead.length + 16 + esD.length) := by
  have hEq : lead ++ ascii (r"'descr': '") ++ [e, tc] ++ esD
      ++ ascii (r"', 'fortran_order': False, 'shape': (") ++ R =
      (lead ++ ascii (r"'descr': '") ++ [e, tc] ++ esD ++ [39, 44, 32, 39]) ++
        (ascii (r"fortran_order") ++
          ([39, 58, 32] ++ ascii (r"False") ++ ascii (r", 'shape': ") ++ [40] ++ R)) := by
    rw [splitM]
    simp [List.append_assoc]
  have hk : lead.length + 16 + esD.length =
      (lead ++ ascii (r"'descr': '") ++ [e, tc] ++ esD ++ [39, 44, 32, 39]).length := by
    simp [lenA]
    omega
  rw [hEq, hk]
  apply strFind_eq_some
  · rw [List.drop_left]
    exact matchesHere_self_append _ _
  · intro j hj
    simp [lenA] at hj
    -- regions: lead ++ A | e | tc | esD | [39,44,32,39]
    by_cases h1 : j < (lead ++ ascii (r"'descr': '")).length
    · have hEq2 : (lead ++ ascii (r"'descr': '") ++ [e, tc] ++ esD ++ [39, 44, 32, 39]) ++
          (ascii (r"fortran_order") ++
            ([39, 58, 32] ++ ascii (r"False") ++ ascii (r", 'shape': ") ++ [40] ++ R)) =
          (lead ++ ascii (r"'descr': '")) ++
            ([e, tc] ++ esD ++ [39, 44, 32, 39] ++
              (ascii (r"fortran_order") ++
                ([39, 58, 32] ++ ascii (r"False") ++ ascii (r", 'shape': ") ++ [40] ++ R))) := by
        simp [List.append_assoc]
      rw [hEq2]
      apply noMatchRegion patF_cons _ _ ?_ j h1
      intro x hx
      rcases List.mem_append.mp hx with hx | hx
      · rw [hlead x hx]; omega
      · have : ∀ y ∈ ascii (r"'descr': '"), ¬ y = 102 := by decide
        exact this x hx
    · have hLA : (lead ++ ascii (r"'descr': '")).length = lead.length + 10 := by
        simp [List.length_append, lenA]
      rw [hLA] at h1
      by_cases h2 : j = lead.length + 10
      · -- position of the endianness byte e
        subst h2
        have hEq2 : (lead ++ ascii (r"'descr': '") ++ [e, tc] ++ esD ++ [39, 44, 32, 39]) ++
            (ascii (r"fortran_order") ++
              ([39, 58, 32] ++ ascii (r"False") ++ ascii (r", 'shape': ") ++ [40] ++ R)) =
            (lead ++ ascii (r"'descr': '")) ++
              (e :: (tc :: (esD ++ [39, 44, 32, 39] ++
                (ascii (r"fortran_order") ++
                  ([39, 58, 32] ++ ascii (r"False") ++ ascii (r", 'shape': ") ++ [40] ++ R))))) := by
          simp [List.append_assoc]
        rw [hEq2, show lead.length + 10 = (lead ++ ascii (r"'descr': '")).length by
          simp [List.length_append, lenA], List.drop_left]
        rw [patF_cons]
        apply matchesHere_head_ne
        rcases he with rfl | rfl | rfl <;> omega
      · by_cases h3 : j = lead.length + 11
        · -- position of the type character tc
          subst h3
          obtain ⟨c, t, hct, hc1, hc2⟩ : ∃ c t, esD = c :: t ∧ 48 ≤ c ∧ c ≤ 57 := by
            cases esD with
            | nil => exact absurd rfl hesDne
            | cons c t =>
              have hc := hesD c (List.mem_cons_self c t)
              exact ⟨c, t, rfl, hc.1, hc.2⟩
          have hEq2 : (lead ++ ascii (r"'descr': '") ++ [e, tc] ++ esD ++ [39, 44, 32, 39]) ++
              (ascii (r"fortran_order") ++
                ([39, 58, 32] ++ ascii (r"False") ++ ascii (r", 'shape': ") ++ [40] ++ R)) =
              (lead ++ ascii (r"'descr': '") ++ [e]) ++
                (tc :: (c :: (t ++ [39, 44, 32, 39] ++
                  (ascii (r"fortran_order") ++
                    ([39, 58, 32] ++ ascii (r"False") ++ ascii (r", 'shape': ") ++ [40] ++ R))))) := by
            rw [hct]
            simp [List.append_assoc]
          rw [hEq2, show lead.length + 11 = (lead ++ ascii (r"'descr': '") ++ [e]).length by
            simp [List.length_append, lenA], List.drop_left]
          rw [show ascii (r"fortran_order") = 102 :: 111 :: ascii (r"rtran_order") by decide]
          apply matchesHere_second_ne
          omega
        · by_cases h4 : j < lead.length + 12 + esD.length
          · -- inside the element-size digits
            have hEq2 : (lead ++ ascii (r"'descr': '") ++ [e, tc] ++ esD ++ [39, 44, 32, 39]) ++
                (ascii (r"fortran_order") ++
                  ([39, 58, 32] ++ ascii (r"False") ++ ascii (r", 'shape': ") ++ [40] ++ R)) =
                (lead ++ ascii (r"'descr': '") ++ [e, tc]) ++
                  (esD ++ ([39, 44, 32, 39] ++
                    (ascii (r"fortran_order") ++
                      ([39, 58, 32] ++ ascii (r"False") ++ ascii (r", 'shape': ") ++ [40] ++ R)))) := by
              simp [List.append_assoc]
            rw [hEq2]
            apply noMatchMid patF_cons _ _ _ ?_ j ?_ ?_
            · intro x hx
              have := hesD x hx
              omega
            · simp [lenA]
              omega
            · simp [lenA]
              omega
          · -- inside the "', '" between size digits and fortran_order
            have hEq2 : (lead ++ ascii (r"'descr': '") ++ [e, tc] ++ esD ++ [39, 44, 32, 39]) ++
                (ascii (r"fortran_order") ++
                  ([39, 58, 32] ++ ascii (r"False") ++ ascii (r", 'shape': ") ++ [40] ++ R)) =
                (lead ++ ascii (r"'descr': '") ++ [e, tc] ++ esD) ++
                  ([39, 44, 32, 39] ++
                    (ascii (r"fortran_order") ++
                      ([39, 58, 32] ++ ascii (r"False") ++ ascii (r", 'shape': ") ++ [40] ++ R))) := by
              simp [List.append_assoc]
            rw [hEq2]
            apply noMatchMid patF_cons _ _ _ ?_ j ?_ ?_
            · intro x hx
              simp only [List.mem_cons, List.not_mem_nil, or_false] at hx
              omega
            · simp [lenA]
              omega
            · simp [lenA]
              omega

theorem splitM_lparen :
    ascii (r"', 'fortran_order': False, 'shape': (") =
      ascii (r"', 'fortran_order': False, 'shape': ") ++ [40] := by decide

theorem M_cons :
    ascii (r"', 'fortran_order': False, 'shape': (") =
      39 :: ascii (r", 'fortran_order': False, 'shape': (") := by decide

theorem find_lparen (lead : List Nat) (e tc : Nat) (esD R : List Nat)
    (hlead : ∀ x ∈ lead, x = 123)
    (he : e = 60 ∨ e = 62 ∨ e = 124)
    (htc40 : tc ≠ 40)
    (hesD : ∀ x ∈ esD, 48 ≤ x ∧ x ≤ 57) :
    strFind (lead ++ ascii (r"'descr': '") ++ [e, tc] ++ esD
        ++ ascii (r"', 'fortran_order': False, 'shape': (") ++ R) [40] =
      some (lead.length + 48 + esD.length) := by
  have hEq : lead ++ ascii (r"'descr': '") ++ [e, tc] ++ esD
      ++ ascii (r"', 'fortran_order': False, 'shape': (") ++ R =
      (lead ++ ascii (r"'descr': '") ++ [e, tc] ++ esD
        ++ ascii (r"', 'fortran_order': False, 'shape': ")) ++ 40 :: R := by
    rw [splitM_lparen]
    simp [List.append_assoc]
  have hk : lead.length + 48 + esD.length =
      (lead ++ ascii (r"'descr': '") ++ [e, tc] ++ esD
        ++ ascii (r"', 'fortran_order': False, 'shape': ")).length := by
    have h36 : (ascii (r"', 'fortran_order': False, 'shape': ")).length = 36 := rfl
    simp [lenA, h36]
    omega
  rw [hEq, hk]
  apply strFind_single_append
  intro x hx
  simp only [List.append_assoc, List.mem_append, List.mem_cons,
    List.not_mem_nil, or_false] at hx
  rcases hx with hx | hx | hx | hx | hx
  · rw [hlead x hx]; omega
  · have : ∀ y ∈ ascii (r"'descr': '"), ¬ y = 40 := by decide
    exact this x hx
  · rcases hx with rfl | rfl
    · rcases he with rfl | rfl | rfl <;> omega
    · exact htc40
  · have := hesD x hx; omega
  · have : ∀ y ∈ ascii (r"', 'fortran_order': False, 'shape': "), ¬ y = 40 := by
      decide
    exact this x hx

theorem find_rparen (lead : List Nat) (e tc : Nat) (esD S X : List Nat)
    (hlead : ∀ x ∈ lead, x = 123)
    (he : e = 60 ∨ e = 62 ∨ e = 124)
    (htc41 : tc ≠ 41)
    (hesD : ∀ x ∈ esD, 48 ≤ x ∧ x ≤ 57)
    (hS : ∀ x ∈ S, x ≠ 41) :
    strFind (lead ++ ascii (r"'descr': '") ++ [e, tc] ++ esD
        ++ ascii (r"', 'fortran_order': False, 'shape': (") ++ S ++ 41 :: X) [41] =
      some (lead.length + 49 + esD.length + S.length) := by
  have hEq : lead ++ ascii (r"'descr': '") ++ [e, tc] ++ esD
      ++ ascii (r"', 'fortran_order': False, 'shape': (") ++ S ++ 41 :: X =
      (lead ++ ascii (r"'descr': '") ++ [e, tc] ++ esD
        ++ ascii (r"', 'fortran_order': False, 'shape': (") ++ S) ++ 41 :: X := by
    simp [List.append_assoc]
  have hk : lead.length + 49 + esD.length + S.length =
      (lead ++ ascii (r"'descr': '") ++ [e, tc] ++ esD
        ++ ascii (r"', 'fortran_order': False, 'shape': (") ++ S).length := by
    simp [lenA, lenM]
    omega
  rw [hEq, hk]
  apply strFind_single_append
  intro x hx
  simp only [List.append_assoc, List.mem_append, List.mem_cons,
    List.not_mem_nil, or_false] at hx
  rcases hx with hx | hx | hx | hx | hx | hx
  · rw [hlead x hx]; omega
  · have : ∀ y ∈ ascii (r"'descr': '"), ¬ y = 41 := by decide
    exact this x hx
  · rcases hx with rfl | rfl
    · rcases he with rfl | rfl | rfl <;> omega
    · exact htc41
  · have := hesD x hx; omega
  · have : ∀ y ∈ ascii (r"', 'fortran_order': False, 'shape': ("), ¬ y = 41 := by
      decide
    exact this x hx
  · exact hS x hx

theorem find_descr (lead R : List Nat) (hlead : ∀ x ∈ lead, x = 123) :
    strFind (lead ++ ascii (r"'descr': '") ++ R) (ascii (r"descr")) =
      some (lead.length + 1) := by
  have hEq : lead ++ ascii (r"'descr': '") ++ R =
      (lead ++ [39]) ++ (ascii (r"descr") ++ ([39, 58, 32, 39] ++ R)) := by
    rw [splitA]
    simp [List.append_assoc]
  have hk : lead.length + 1 = (lead ++ [39]).length := by
    simp
  rw [hEq, hk]
  apply strFind_eq_some
  · rw [List.drop_left]
    exact matchesHere_self_append _ _
  · intro j hj
    apply noMatchRegion patD_cons _ _ ?_ j hj
    intro x hx
    rcases List.mem_append.mp hx with hx | hx
    · rw [hlead x hx]; omega
    · simp only [List.mem_cons, List.not_mem_nil, or_false] at hx
      omega

theorem find_quote (esD R : List Nat) (hesD : ∀ x ∈ esD, 48 ≤ x ∧ x ≤ 57) :
    strFind (esD ++ ascii (r"', 'fortran_order': False, 'shape': (") ++ R) [39] =
      some esD.length := by
  have hEq : esD ++ ascii (r"', 'fortran_order': False, 'shape': (") ++ R =
      esD ++ 39 :: (ascii (r", 'fortran_order': False, 'shape': (") ++ R) := by
    rw [M_cons]
    simp [List.append_assoc]
  rw [hEq]
  apply strFind_single_append
  intro x hx
  have := hesD x hx
  omega

/-- The dictionary text produced by `create_npy_header`, parameterised
over its variable parts: `lead` is the opening brace (present when the
whole dictionary is decoded, absent in the flat-file path whose header
string starts after the brace), `e` the endianness byte, `tc` the type
character, `esD` the element-size digits, `S` the shape tuple body and
`pad` the trailing padding. -/
def mkDict (lead : List Nat) (e tc : Nat) (esD S pad : List Nat) : List Nat :=
  lead ++ ascii (r"'descr': '") ++ [e, tc] ++ esD
    ++ ascii (r"', 'fortran_order': False, 'shape': (")
    ++ S ++ ascii (r"), ") ++ [125] ++ pad

/-- Master lemma: the dictionary-text decoder on generated header text.
It accepts the little-endian / not-applicable endianness bytes and
reports the configured error on the big-endian byte; on acceptance it
returns the element size, the shape and `fortran_order = false`. -/
theorem parseDictCore_mkDict (endianErr : Err) (lead : List Nat)
    (e tc esN : Nat) (shape pad : List Nat)
    (hlead : ∀ x ∈ lead, x = 123)
    (he : e = 60 ∨ e = 62 ∨ e = 124)
    (htc : tc = 105 ∨ tc = 117 ∨ tc = 102 ∨ tc = 99 ∨ tc = 98 ∨ tc = 63)
    (hshape : shape ≠ []) :
    parseDictCore endianErr (mkDict lead e tc (decimal esN) (shapeBody shape) pad) =
      if e = 62 then .error endianErr else .ok ⟨esN, shape, false⟩ := by
  have hdigit : ∀ x ∈ decimal esN, 48 ≤ x ∧ x ≤ 57 := fun x hx => mem_decimal hx
  have hIeq : mkDict lead e tc (decimal esN) (shapeBody shape) pad =
      lead ++ ascii (r"'descr': '") ++ [e, tc] ++ decimal esN
        ++ ascii (r"', 'fortran_order': False, 'shape': (")
        ++ (shapeBody shape ++ ascii (r"), ") ++ [125] ++ pad) := by
    simp [mkDict, List.append_assoc]
  -- find("fortran_order")
  have hF1 : strFind (mkDict lead e tc (decimal esN) (shapeBody shape) pad)
      (ascii (r"fortran_order")) =
      some (lead.length + 16 + (decimal esN).length) := by
    rw [hIeq]
    exact find_fortran lead e tc (decimal esN) _ hlead he (decimal_ne_nil esN) hdigit
  -- the five bytes at find("fortran_order") + 16 spell "False"
  have hFalse : substrL (mkDict lead e tc (decimal esN) (shapeBody shape) pad)
      (lead.length + 16 + (decimal esN).length + 16) 5 = ascii (r"False") := by
    have hsplit : mkDict lead e tc (decimal esN) (shapeBody shape) pad =
        (lead ++ ascii (r"'descr': '") ++ [e, tc] ++ decimal esN
          ++ [39, 44, 32, 39] ++ ascii (r"fortran_order") ++ [39, 58, 32]) ++
          (ascii (r"False") ++ (ascii (r", 'shape': ") ++ [40]
            ++ shapeBody shape ++ ascii (r"), ") ++ [125] ++ pad)) := by
      rw [mkDict, splitM]
      simp [List.append_assoc]
    have hk : lead.length + 16 + (decimal esN).length + 16 =
        (lead ++ ascii (r"'descr': '") ++ [e, tc] ++ decimal esN
          ++ [39, 44, 32, 39] ++ ascii (r"fortran_order") ++ [39, 58, 32]).length := by
      simp [lenA, lenF]
      omega
    rw [hsplit, hk, substrL, List.drop_left,
      show (5 : Nat) = (ascii (r"False")).length from rfl, List.take_left]
  -- find("(")
  have hF2 : strFind (mkDict lead e tc (decimal esN) (shapeBody shape) pad) [40] =
      some (lead.length + 48 + (decimal esN).length) := by
    rw [hIeq]
    exact find_lparen lead e tc (decimal esN) _ hlead he
      (by rcases htc with rfl | rfl | rfl | rfl | rfl | rfl <;> omega) hdigit
  -- find(")")
  have hF3 : strFind (mkDict lead e tc (decimal esN) (shapeBody shape) pad) [41] =
      some (lead.length + 49 + (decimal esN).length + (shapeBody shape).length) := by
    have hsplit : mkDict lead e tc (decimal esN) (shapeBody shape) pad =
        lead ++ ascii (r"'descr': '") ++ [e, tc] ++ decimal esN
          ++ ascii (r"', 'fortran_order': False, 'shape': (")
          ++ shapeBody shape ++ 41 :: ([44, 32] ++ [125] ++ pad) := by
      rw [mkDict, show ascii (r"), ") = 41 :: [44, 32] from rfl]
      simp [List.append_assoc]
    rw [hsplit]
    exact find_rparen lead e tc (decimal esN) (shapeBody shape) _ hlead he
      (by rcases htc with rfl | rfl | rfl | rfl | rfl | rfl <;> omega) hdigit
      (fun x hx => by rcases mem_shapeBody hx with h | h | h <;> omega)
  -- the shape substring between the parentheses
  have hshapeStr : substrL (mkDict lead e tc (decimal esN) (shapeBody shape) pad)
      (lead.length + 48 + (decimal esN).length + 1)
      (lead.length + 49 + (decimal esN).length + (shapeBody shape).length -
        (lead.length + 48 + (decimal esN).length) - 1) = shapeBody shape := by
    have harith : lead.length + 49 + (decimal esN).length + (shapeBody shape).length -
        (lead.length + 48 + (decimal esN).length) - 1 = (shapeBody shape).length := by
      omega
    have hsplit : mkDict lead e tc (decimal esN) (shapeBody shape) pad =
        (lead ++ ascii (r"'descr': '") ++ [e, tc] ++ decimal esN
          ++ ascii (r"', 'fortran_order': False, 'shape': (")) ++
          (shapeBody shape ++ (ascii (r"), ") ++ [125] ++ pad)) := by
      rw [mkDict]
      simp [List.append_assoc]
    have hk : lead.length + 48 + (decimal esN).length + 1 =
        (lead ++ ascii (r"'descr': '") ++ [e, tc] ++ decimal esN
          ++ ascii (r"', 'fortran_order': False, 'shape': (")).length := by
      simp [lenA, lenM]
      omega
    rw [harith, hsplit, substrL, hk, List.drop_left, List.take_left]
  -- find("descr")
  have hF4 : strFind (mkDict lead e tc (decimal esN) (shapeBody shape) pad)
      (ascii (r"descr")) = some (lead.length + 1) := by
    have hsplit : mkDict lead e tc (decimal esN) (shapeBody shape) pad =
        lead ++ ascii (r"'descr': '") ++ ([e, tc] ++ decimal esN
          ++ ascii (r"', 'fortran_order': False, 'shape': (")
          ++ shapeBody shape ++ ascii (r"), ") ++ [125] ++ pad) := by
      rw [mkDict]
      simp [List.append_assoc]
    rw [hsplit]
    exact find_descr lead _ hlead
  -- the byte at find("descr") + 9 is the endianness byte
  have hgetD : (mkDict lead e tc (decimal esN) (shapeBody shape) pad).getD
      (lead.length + 1 + 9) 0 = e := by
    have hsplit : mkDict lead e tc (decimal esN) (shapeBody shape) pad =
        (lead ++ ascii (r"'descr': '")) ++ e :: (tc :: (decimal esN
          ++ ascii (r"', 'fortran_order': False, 'shape': (")
          ++ shapeBody shape ++ ascii (r"), ") ++ [125] ++ pad)) := by
      rw [mkDict]
      simp [List.append_assoc]
    have hk : lead.length + 1 + 9 = (lead ++ ascii (r"'descr': '")).length := by
      simp [lenA]
    rw [hsplit, hk]
    exact getD_append_length _ _ _ _
  -- the tail after find("descr") + 9 + 2 starts at the element-size digits
  have hdrop12 : dropL (mkDict lead e tc (decimal esN) (shapeBody shape) pad)
      (lead.length + 1 + 9 + 2) =
      decimal esN ++ ascii (r"', 'fortran_order': False, 'shape': (")
        ++ (shapeBody shape ++ ascii (r"), ") ++ [125] ++ pad) := by
    have hsplit : mkDict lead e tc (decimal esN) (shapeBody shape) pad =
        (lead ++ ascii (r"'descr': '") ++ [e, tc]) ++
          (decimal esN ++ ascii (r"', 'fortran_order': False, 'shape': (")
            ++ (shapeBody shape ++ ascii (r"), ") ++ [125] ++ pad)) := by
      rw [mkDict]
      simp [List.append_assoc]
    have hk : lead.length + 1 + 9 + 2 =
        (lead ++ ascii (r"'descr': '") ++ [e, tc]).length := by
      simp only [List.length_append, List.length_cons, List.length_nil, lenA]
    rw [hsplit, hk, dropL, List.drop_left]
  -- find("'") in that tail
  have hF5 : strFind (decimal esN ++ ascii (r"', 'fortran_order': False, 'shape': (")
      ++ (shapeBody shape ++ ascii (r"), ") ++ [125] ++ pad)) [39] =
      some (decimal esN).length := by
    exact find_quote (decimal esN) _ hdigit
  have htakeE : substrL (decimal esN ++ ascii (r"', 'fortran_order': False, 'shape': (")
      ++ (shapeBody shape ++ ascii (r"), ") ++ [125] ++ pad)) 0
      (decimal esN).length = decimal esN := by
    rw [substrL, List.drop_zero, List.append_assoc, List.take_left]
  -- the textual ndims equals the rank
  have hnd : ∃ c, (shapeBody shape).getLast? = some c ∧
      (if c == 44 then 1 else (shapeBody shape).count 44 + 1) =
        shape.length := by
    by_cases hl : shape.length = 1
    · obtain ⟨d, rfl⟩ : ∃ d, shape = [d] := by
        cases shape with
        | nil => simp at hl
        | cons d t =>
          cases t with
          | nil => exact ⟨d, rfl⟩
          | cons d2 r => simp at hl
      exact ⟨44, shapeBody_getLast?_rank1 d, by simp⟩
    · have h2 : 2 ≤ shape.length := by
        cases shape with
        | nil => exact absurd rfl hshape
        | cons d t =>
          cases t with
          | nil => simp at hl
          | cons b r =>
            simp only [List.length_cons]
            omega
      obtain ⟨c, hc, hc1, hc2⟩ := shapeBody_getLast?_rank2 h2
      refine ⟨c, hc, ?_⟩
      have hcc : (c == 44) = false := by
        simp
        omega
      simp only [hcc, Bool.false_eq_true, if_false, shapeBody_count_comma h2]
      omega
  have hloop : parseShapeLoop (shapeBody shape) shape.length = .ok shape :=
    parseShapeLoop_shapeBody hshape
  have hTrue : (ascii (r"False") == ascii (r"True")) = false := by decide
  have lenRp : (ascii (r"), ")).length = 3 := rfl
  have hlen : (mkDict lead e tc (decimal esN) (shapeBody shape) pad).length =
      lead.length + 53 + (decimal esN).length + (shapeBody shape).length +
        pad.length := by
    rw [mkDict]
    simp only [List.length_append, List.length_cons, List.length_nil,
      lenA, lenM, lenRp]
    omega
  have hif1 : ¬ ((mkDict lead e tc (decimal esN)
        (shapeBody shape) pad).length <
      lead.length + 16 + (decimal esN).length + 16) := by
    rw [hlen]; omega
  have hifs : ¬ (lead.length + 49 + (decimal esN).length +
      (shapeBody shape).length <
        lead.length + 48 + (decimal esN).length + 1) := by
    omega
  have hif2 : ¬ ((mkDict lead e tc (decimal esN)
        (shapeBody shape) pad).length < lead.length + 1 + 9) := by
    rw [hlen]; omega
  have hif3 : ¬ ((mkDict lead e tc (decimal esN)
        (shapeBody shape) pad).length < lead.length + 1 + 9 + 2) := by
    rw [hlen]; omega
  obtain ⟨c, hlast, hcnd⟩ := hnd
  -- assemble
  rw [parseDictCore, hF1]
  simp only [hif1, if_false, hFalse, hTrue, hF2, hF3, hifs, hshapeStr,
    hlast, hcnd, hloop, hF4, hif2, hgetD, hif3, hdrop12, hF5, htakeE,
    parseNat_decimal]
  rcases he with rfl | rfl | rfl <;> simp

/-! ### Length bounds for generated headers -/

theorem shapeTail_length_le {l : List Nat} (hd : ∀ d ∈ l, d < 18446744073709551616) :
    (shapeTail l).length ≤ 22 * l.length := by
  induction l with
  | nil => simp [shapeTail]
  | cons d rest ih =>
    have h1 : (decimal d).length ≤ 20 :=
      decimal_length_le (hd d (List.mem_cons_self d rest))
    have h2 := ih (fun x hx => hd x (List.mem_cons_of_mem d hx))
    simp only [shapeTail, List.length_append, List.length_cons, List.length_nil]
    omega

theorem shapeBody_length_le {shape : List Nat} (hrank : shape.length ≤ 4)
    (hd : ∀ d ∈ shape, d < 18446744073709551616) :
    (shapeBody shape).length ≤ 87 := by
  have h0 : (decimal (shape.headD 0)).length ≤ 20 := by
    cases shape with
    | nil => simpa using @decimal_length_le 0 (by norm_num)
    | cons d t =>
      exact decimal_length_le (hd d (List.mem_cons_self d t))
  have h1 : (shapeTail shape.tail).length ≤ 22 * shape.tail.length := by
    apply shapeTail_length_le
    intro x hx
    exact hd x (List.mem_of_mem_tail hx)
  have h2 : shape.tail.length ≤ 3 := by
    rw [List.length_tail]
    omega
  unfold shapeBody
  simp only [List.length_append]
  split <;> simp only [List.length_cons, List.length_nil] <;> omega

/-- Worker bound: the body of a generated dictionary (without the brace
and without the final newline) fits in an `fgets` window. -/
theorem mkDict_noLead_length_le {e tc esN : Nat} {shape : List Nat} {k : Nat}
    (hrank : shape.length ≤ 4)
    (hd : ∀ d ∈ shape, d < 18446744073709551616)
    (hes : esN < 18446744073709551616)
    (hk : k ≤ 15) :
    (mkDict [] e tc (decimal esN) (shapeBody shape) (List.replicate k 32)).length ≤
      254 := by
  have h1 : (decimal esN).length ≤ 20 := decimal_length_le hes
  have h2 : (shapeBody shape).length ≤ 87 := shapeBody_length_le hrank hd
  simp only [mkDict, List.length_append, List.length_replicate, lenA, lenM,
    List.nil_append, List.length_cons, List.length_nil]
  have h3 : (ascii (r"), ")).length = 3 := rfl
  omega

/-! ### The flat-file header decode on generated input -/

theorem findIdx_no_first {p : Nat → Bool} {B : List Nat} (hB : ∀ x ∈ B, p x = false)
    {y : Nat} (hy : p y = true) (R : List Nat) :
    (B ++ y :: R).findIdx p = B.length := by
  induction B with
  | nil => simp [List.findIdx_cons, hy]
  | cons a t ih =>
    rw [List.cons_append, List.findIdx_cons, hB a (List.mem_cons_self a t)]
    simp only [cond_false]
    rw [ih (fun x hx => hB x (List.mem_cons_of_mem a hx))]
    rfl

theorem mkDict_body_no_newline {e tc esN : Nat} {shape : List Nat} {k : Nat}
    (he : e = 60 ∨ e = 62 ∨ e = 124)
    (htc : tc = 105 ∨ tc = 117 ∨ tc = 102 ∨ tc = 99 ∨ tc = 98 ∨ tc = 63) :
    ∀ x ∈ mkDict [] e tc (decimal esN) (shapeBody shape) (List.replicate k 32),
      (x == 10) = false := by
  intro x hx
  simp only [beq_eq_false_iff_ne, ne_eq]
  intro rfl10
  subst rfl10
  simp only [mkDict, List.nil_append, List.append_assoc, List.mem_append] at hx
  rcases hx with hx | hx | hx | hx | hx | hx | hx | hx
  · exact absurd hx (by decide)
  · simp only [List.mem_cons, List.not_mem_nil, or_false] at hx
    rcases hx with rfl | rfl
    · rcases he with h | h | h <;> omega
    · rcases htc with h | h | h | h | h | h <;> omega
  · have := mem_decimal hx; omega
  · exact absurd hx (by decide)
  · rcases mem_shapeBody hx with h | h | h <;> omega
  · exact absurd hx (by decide)
  · simp only [List.mem_cons, List.not_mem_nil, or_false] at hx
    omega
  · have := List.eq_of_mem_replicate hx
    omega

theorem parse_npy_header_mkDict (pre : List Nat) (e tc esN : Nat)
    (shape : List Nat) (k : Nat) (payload : List Nat)
    (hpre : pre.length = 10)
    (he : e = 60 ∨ e = 62 ∨ e = 124)
    (htc : tc = 105 ∨ tc = 117 ∨ tc = 102 ∨ tc = 99 ∨ tc = 98 ∨ tc = 63)
    (hshape : shape ≠ [])
    (hB : (mkDict [] e tc (decimal esN) (shapeBody shape)
      (List.replicate k 32)).length ≤ 254) :
    parse_npy_header (pre ++
        mkDict [123] e tc (decimal esN) (shapeBody shape)
          (List.replicate k 32 ++ [10]) ++ payload) =
      if e = 62 then .error .assertEndian
      else .ok (⟨esN, shape, false⟩, payload) := by
  have hsplit1 : pre ++
      mkDict [123] e tc (decimal esN) (shapeBody shape)
        (List.replicate k 32 ++ [10]) ++ payload =
      (pre ++ [123]) ++
        ((mkDict [] e tc (decimal esN) (shapeBody shape) (List.replicate k 32)) ++
          10 :: payload) := by
    simp [mkDict, List.append_assoc]
  have hlen1 : (pre ++ [123]).length = 11 := by
    simp [hpre]
  have h11 : ¬ ((pre ++
      mkDict [123] e tc (decimal esN) (shapeBody shape)
        (List.replicate k 32 ++ [10]) ++ payload).length < 11) := by
    rw [hsplit1]
    simp [hlen1, hpre]
    omega
  have hrest : (pre ++
      mkDict [123] e tc (decimal esN) (shapeBody shape)
        (List.replicate k 32 ++ [10]) ++ payload).drop 11 =
      (mkDict [] e tc (decimal esN) (shapeBody shape) (List.replicate k 32)) ++
        10 :: payload := by
    rw [hsplit1, ← hlen1, List.drop_left]
  have hwin : ((mkDict [] e tc (decimal esN) (shapeBody shape)
      (List.replicate k 32)) ++ 10 :: payload).take 255 =
      (mkDict [] e tc (decimal esN) (shapeBody shape) (List.replicate k 32)) ++
        10 :: payload.take (254 -
          (mkDict [] e tc (decimal esN) (shapeBody shape)
            (List.replicate k 32)).length) := by
    rw [List.take_append_eq_append_take,
      List.take_of_length_le (le_trans hB (by norm_num))]
    congr 1
    have h1 : 255 - (mkDict [] e tc (decimal esN) (shapeBody shape)
        (List.replicate k 32)).length =
        (254 - (mkDict [] e tc (decimal esN) (shapeBody shape)
          (List.replicate k 32)).length) + 1 := by
      omega
    rw [h1, List.take_succ_cons]
  have hfi : ((mkDict [] e tc (decimal esN) (shapeBody shape)
      (List.replicate k 32)) ++
        10 :: payload.take (254 -
          (mkDict [] e tc (decimal esN) (shapeBody shape)
            (List.replicate k 32)).length)).findIdx (· == 10) =
      (mkDict [] e tc (decimal esN) (shapeBody shape)
        (List.replicate k 32)).length :=
    findIdx_no_first (mkDict_body_no_newline he htc) (by simp) _
  have hne : ¬ ((mkDict [] e tc (decimal esN) (shapeBody shape)
      (List.replicate k 32)).length =
      ((mkDict [] e tc (decimal esN) (shapeBody shape)
        (List.replicate k 32)) ++
          10 :: payload.take (254 -
            (mkDict [] e tc (decimal esN) (shapeBody shape)
              (List.replicate k 32)).length)).length) := by
    simp
  have htakehdr : ((mkDict [] e tc (decimal esN) (shapeBody shape)
      (List.replicate k 32)) ++
        10 :: payload.take (254 -
          (mkDict [] e tc (decimal esN) (shapeBody shape)
            (List.replicate k 32)).length)).take
      ((mkDict [] e tc (decimal esN) (shapeBody shape)
        (List.replicate k 32)).length + 1) =
      mkDict [] e tc (decimal esN) (shapeBody shape)
        (List.replicate k 32 ++ [10]) := by
    rw [List.take_append]
    rw [List.take_succ_cons, List.take_zero]
    simp [mkDict, List.append_assoc]
  have hcore := parseDictCore_mkDict .assertEndian [] e tc esN shape
    (List.replicate k 32 ++ [10]) (by simp) he htc hshape
  have hdropEnd : (pre ++
      mkDict [123] e tc (decimal esN) (shapeBody shape)
        (List.replicate k 32 ++ [10]) ++ payload).drop
      (11 + (mkDict [] e tc (decimal esN) (shapeBody shape)
        (List.replicate k 32)).length + 1) = payload := by
    have hsplit2 : pre ++
        mkDict [123] e tc (decimal esN) (shapeBody shape)
          (List.replicate k 32 ++ [10]) ++ payload =
        ((pre ++ [123]) ++
          ((mkDict [] e tc (decimal esN) (shapeBody shape)
            (List.replicate k 32)) ++ [10])) ++ payload := by
      simp [mkDict, List.append_assoc]
    have hk2 : 11 + (mkDict [] e tc (decimal esN) (shapeBody shape)
        (List.replicate k 32)).length + 1 =
        ((pre ++ [123]) ++
          ((mkDict [] e tc (decimal esN) (shapeBody shape)
            (List.replicate k 32)) ++ [10])).length := by
      simp [hpre]
      omega
    rw [hsplit2, hk2, List.drop_left]
  rw [parse_npy_header, if_neg h11]
  simp only [hrest, hwin, hfi]
  rw [if_neg hne]
  simp only [htakehdr, hcore]
  by_cases he62 : e = 62
  · rw [if_pos he62, if_pos he62]
  · rw [if_neg he62, if_neg he62, hdropEnd]

/-! ### Connecting `create_npy_header` with the generated-dictionary form -/

/-- The padding amount `remainder` chosen by `create_npy_header`. -/
def npyPad (dtype : CnpyType) (es : Nat) (shape : List Nat) : Nat :=
  16 - (10 + (dictBase dtype es shape).length) % 16

theorem npyPad_pos (dtype : CnpyType) (es : Nat) (shape : List Nat) :
    1 ≤ npyPad dtype es shape ∧ npyPad dtype es shape ≤ 16 := by
  unfold npyPad
  omega

theorem dict_eq_mkDict (dtype : CnpyType) (es : Nat) (shape : List Nat)
    (X : List Nat) :
    dictBase dtype es shape ++ X =
      mkDict [123] 60 (map_type dtype) (decimal es) (shapeBody shape) X := by
  simp [dictBase, mkDict, List.append_assoc]

theorem create_npy_header_decomp (dtype : CnpyType) (es : Nat) (shape : List Nat) :
    create_npy_header dtype es shape =
      [147, 78, 85, 77, 80, 89, 1, 0,
        ((dictBase dtype es shape).length + npyPad dtype es shape) % 65536 % 256,
        ((dictBase dtype es shape).length + npyPad dtype es shape) % 65536 / 256 % 256]
      ++ mkDict [123] 60 (map_type dtype) (decimal es) (shapeBody shape)
          (List.replicate (npyPad dtype es shape - 1) 32 ++ [10]) := by
  have hlen : (dictBase dtype es shape ++
      (List.replicate (16 - (10 + (dictBase dtype es shape).length) % 16 - 1) 32 ++
        [10])).length = (dictBase dtype es shape).length + npyPad dtype es shape := by
    simp [npyPad]
    omega
  simp only [create_npy_header, List.append_assoc, hlen]
  rw [← dict_eq_mkDict]
  simp [npyPad, List.append_assoc]

theorem dictBase_length (dtype : CnpyType) (es : Nat) (shape : List Nat) :
    (dictBase dtype es shape).length =
      54 + (decimal es).length + (shapeBody shape).length := by
  have h3 : (ascii (r"), ")).length = 3 := rfl
  simp [dictBase, lenA, lenM, h3]
  omega

theorem create_npy_header_length (dtype : CnpyType) (es : Nat) (shape : List Nat) :
    (create_npy_header dtype es shape).length =
      10 + (dictBase dtype es shape).length + npyPad dtype es shape := by
  have hp := npyPad_pos dtype es shape
  have h3 : (ascii (r"), ")).length = 3 := rfl
  rw [create_npy_header_decomp]
  simp [mkDict, lenA, lenM, h3, dictBase_length]
  omega

theorem map_type_mem (dtype : CnpyType) :
    map_type dtype = 105 ∨ map_type dtype = 117 ∨ map_type dtype = 102 ∨
      map_type dtype = 99 ∨ map_type dtype = 98 ∨ map_type dtype = 63 := by
  cases dtype <;> simp [map_type]

/-- `parse_npy_header` round-trips headers written by `create_npy_header`:
it returns the element size, the shape, `fortran_order = false` and the
untouched payload. -/
theorem parse_npy_header_create (dtype : CnpyType) (es : Nat)
    (shape payload : List Nat)
    (hshape : shape ≠ []) (hrank : shape.length ≤ 4)
    (hdims : ∀ d ∈ shape, d < 18446744073709551616)
    (hes : es < 18446744073709551616) :
    parse_npy_header (create_npy_header dtype es shape ++ payload) =
      .ok (⟨es, shape, false⟩, payload) := by
  rw [create_npy_header_decomp]
  have h := parse_npy_header_mkDict
    [147, 78, 85, 77, 80, 89, 1, 0,
      ((dictBase dtype es shape).length + npyPad dtype es shape) % 65536 % 256,
      ((dictBase dtype es shape).length + npyPad dtype es shape) % 65536 / 256 % 256]
    60 (map_type dtype) es shape (npyPad dtype es shape - 1) payload
    (by simp) (Or.inl rfl) (map_type_mem dtype) hshape
    (mkDict_noLead_length_le hrank hdims hes (by
      have := npyPad_pos dtype es shape
      omega))
  rw [h]
  simp

/-! ### The element-count arithmetic of the save path -/

theorem foldl_mul_mod :
    ∀ (shape : List Nat) (a : Nat),
      shape.foldl (fun a d => a * d % 4294967296) (a % 4294967296) =
        (shape.foldl (· * ·) a) % 4294967296 := by
  intro shape
  induction shape with
  | nil => intro a; simp
  | cons d rest ih =>
    intro a
    simp only [List.foldl_cons]
    rw [Nat.mod_mul_mod, ih]

theorem nelsU_eq {shape : List Nat} (h : shape.foldl (· * ·) 1 < 4294967296) :
    nelsU shape = shape.foldl (· * ·) 1 := by
  have h1 := foldl_mul_mod shape 1
  rw [show (1 : Nat) % 4294967296 = 1 from rfl] at h1
  rw [nelsU, h1, Nat.mod_eq_of_lt h]

theorem foldl_mul_init (shape : List Nat) :
    ∀ (a : Nat), shape.foldl (· * ·) a = a * shape.foldl (· * ·) 1 := by
  induction shape with
  | nil => intro a; simp
  | cons d rest ih =>
    intro a
    simp only [List.foldl_cons]
    rw [ih (a * d), ih (1 * d)]
    ring

/-- Saving a fresh flat file and loading it back: the shape, element
size and fortran flag are reproduced, the payload is byte-identical,
and the dtype comes back as `Void` (the decoder never reads the type
character). -/
theorem npy_load_of_save (dtype : CnpyType) (es : Nat) (shape data : List Nat)
    (hshape : shape ≠ []) (hrank : shape.length ≤ 4)
    (hdims : ∀ d ∈ shape, d < 18446744073709551616)
    (hes : es < 18446744073709551616) (hespos : 0 < es)
    (hprod : shape.foldl (· * ·) 1 < 4294967296)
    (hdata : data.length = es * shape.foldl (· * ·) 1) :
    npy_load (npy_save_data none data dtype es shape 119).2 =
      .ok { mData := some data, mShape := shape, mElemSize := es,
            mDataSize := es * shape.foldl (· * ·) 1, mIsFortranOrder := false,
            mDtype := .Void, mHasDataOwnership := true } := by
  have hsave : (npy_save_data none data dtype es shape 119).2 =
      some (create_npy_header dtype es shape ++ data) := by
    simp only [npy_save_data, ite_self]
    rw [nelsU_eq hprod, ← hdata, List.take_length]
  rw [hsave]
  simp only [npy_load, load_the_npy_file_fp]
  rw [parse_npy_header_create dtype es shape data hshape hrank hdims hes]
  have hnum : (NpArr.mkShaped shape es CnpyType.Void false []).numElements =
      shape.foldl (· * ·) 1 := by
    simp only [NpArr.numElements, NpArr.mkShaped]
    rw [foldl_mul_init shape es, Nat.mul_div_cancel_left _ hespos]
  simp only [hnum]
  have hdiv : data.length / es = shape.foldl (· * ·) 1 := by
    rw [hdata, Nat.mul_div_cancel_left _ hespos]
  rw [hdiv]
  simp only [min_self, ne_eq, not_true_eq_false, if_false]
  rw [← hdata, List.take_length]
  simp only [NpArr.mkShaped, foldl_mul_init shape es]
  rw [hdata]

/-! ## Claim theorems -/

/-- C7: for every valid encode (any dtype, element size, and rank ≥ 1
shape), `(10 + dictionaryLength) % 16 = 0`, the last dictionary byte is
a newline, and the padding immediately before the newline consists of
space characters (the dictionary is the unpadded dictionary text
followed by spaces and one newline). -/
theorem C7_header_alignment (dtype : CnpyType) (es : Nat) (shape : List Nat)
    (hshape : shape ≠ []) :
    (10 + ((create_npy_header dtype es shape).drop 10).length) % 16 = 0 ∧
    ((create_npy_header dtype es shape).drop 10).getLast? = some 10 ∧
    ∃ pad, (create_npy_header dtype es shape).drop 10 =
      dictBase dtype es shape ++ List.replicate pad 32 ++ [10] := by
  have hp := npyPad_pos dtype es shape
  have hdrop10 : ∀ (a b : Nat) (X : List Nat),
      (([147, 78, 85, 77, 80, 89, 1, 0, a, b] : List Nat) ++ X).drop 10 = X :=
    fun _ _ _ => rfl
  have hdict : (create_npy_header dtype es shape).drop 10 =
      dictBase dtype es shape ++
        List.replicate (npyPad dtype es shape - 1) 32 ++ [10] := by
    rw [create_npy_header_decomp, ← dict_eq_mkDict, hdrop10, ← List.append_assoc]
  refine ⟨?_, ?_, ⟨npyPad dtype es shape - 1, hdict⟩⟩
  · rw [hdict]
    simp only [List.length_append, List.length_replicate, List.length_cons,
      List.length_nil]
    unfold npyPad at *
    omega
  · rw [hdict, List.append_assoc, List.getLast?_append, List.getLast?_append]
    rfl

/-- C7 witness at a concrete encode. -/
theorem C7_witness :
    ([2, 3] : List Nat) ≠ [] ∧
    (10 + ((create_npy_header .Double 8 [2, 3]).drop 10).length) % 16 = 0 ∧
    ((create_npy_header .Double 8 [2, 3]).drop 10).getLast? = some 10 ∧
    ∃ pad, (create_npy_header .Double 8 [2, 3]).drop 10 =
      dictBase .Double 8 [2, 3] ++ List.replicate pad 32 ++ [10] := by
  refine ⟨by decide, ?_⟩
  exact C7_header_alignment .Double 8 [2, 3] (by decide)

/-- C3: the invariant `size() = product(shape) * elementSize` is broken
by `NpArray::move`: the source code (cnpy.h lines 267-282) copies
`mData`, `mShape`, `mElemSize` and the flags but never `mDataSize`, so
after a move assignment the destination keeps its previous `mDataSize`.
Concretely, moving a 2×3 array of 4-byte elements (24 payload bytes)
into a 5-byte array leaves `size() = 5` while `product(shape) *
elementSize = 24 = source.size()`. -/
theorem C3_move_loses_dataSize :
    (NpArr.moveFrom (NpArr.mkShaped [5] 1 .Int8 false (List.replicate 5 0))
        (NpArr.mkShaped [2, 3] 4 .Int32 false (List.replicate 24 0))).1.mShape =
      [2, 3] ∧
    (NpArr.moveFrom (NpArr.mkShaped [5] 1 .Int8 false (List.replicate 5 0))
        (NpArr.mkShaped [2, 3] 4 .Int32 false (List.replicate 24 0))).1.mElemSize =
      4 ∧
    (NpArr.mkShaped [2, 3] 4 .Int32 false (List.replicate 24 0)).size = 24 ∧
    (NpArr.moveFrom (NpArr.mkShaped [5] 1 .Int8 false (List.replicate 5 0))
        (NpArr.mkShaped [2, 3] 4 .Int32 false (List.replicate 24 0))).1.size = 5 ∧
    (NpArr.moveFrom (NpArr.mkShaped [5] 1 .Int8 false (List.replicate 5 0))
        (NpArr.mkShaped [2, 3] 4 .Int32 false (List.replicate 24 0))).1.size ≠
      ([2, 3] : List Nat).foldl (· * ·) 4 ∧
    (NpArr.moveFrom (NpArr.mkShaped [5] 1 .Int8 false (List.replicate 5 0))
        (NpArr.mkShaped [2, 3] 4 .Int32 false (List.replicate 24 0))).1.size ≠
      (NpArr.mkShaped [2, 3] 4 .Int32 false (List.replicate 24 0)).size := by
  decide

/-- C6 counterexample: `npy_load` on a file that cannot be opened does
not fail — it prints a message and returns the default empty `NpArray`
(cnpy.cpp lines 674-677). -/
theorem C6_counterexample :
    npy_load none = .ok NpArr.empty ∧ NpArr.empty.mData = none ∧
      NpArr.empty.mShape = [] := by
  exact ⟨rfl, rfl, rfl⟩

/-- C6 (amended): an archive that cannot be opened makes both `npz_load`
overloads fail immediately with a fatal error, but `npy_load` on an
unopenable flat file prints an error and returns the default empty
`NpArray` instead of failing. -/
theorem C6_amended :
    npz_load none = .error .cannotOpen ∧
    (∀ v : String, npz_load_var none v = .error .cannotOpen) ∧
    npy_load none = .ok NpArr.empty := by
  exact ⟨rfl, fun _ => rfl, rfl⟩

/-- C10: the whole-archive load derives each key by removing exactly the
last four characters of the stored entry name regardless of their
content; on a stored name shorter than four characters the `size_t`
position `name.size() - 4` wraps and `std::string::erase` raises
`std::out_of_range`.  (`s.length < 2^64` models the `size_t` range of
`std::string::size()`.) -/
theorem C10_strip_four :
    (∀ s : String, s.length < 4 → stripLast4 s = .error .outOfRange) ∧
    (∀ s : String, 4 ≤ s.length → s.length < 18446744073709551616 →
      stripLast4 s = .ok (s.take (s.length - 4))) ∧
    (∀ (name : String) (bytes : List Nat) (rest : Archive), name.length < 4 →
      npz_load (some ((name, bytes) :: rest)) = .error .outOfRange) := by
  have hstrip : ∀ s : String, s.length < 4 → stripLast4 s = .error .outOfRange := by
    intro s hs
    rw [stripLast4]
    rw [if_neg (show ¬ 4 ≤ s.length from by omega)]
    rw [if_pos (show s.length < s.length + 18446744073709551612 from by omega)]
  refine ⟨hstrip, ?_, ?_⟩
  · intro s h4 hbig
    rw [stripLast4]
    rw [if_pos h4]
    rw [if_neg (show ¬ s.length < s.length - 4 from by omega)]
  · intro name bytes rest hlt
    rw [npz_load, npzLoadAll, hstrip name hlt]

/-- C10 witness at concrete names. -/
theorem C10_witness :
    ("abc" : String).length < 4 ∧ stripLast4 "abc" = .error .outOfRange ∧
    stripLast4 "data.npy" = .ok (("data.npy" : String).take
      (("data.npy" : String).length - 4)) := by
  refine ⟨by decide, C10_strip_four.1 "abc" (by decide),
    C10_strip_four.2.1 "data.npy" (by decide) (by decide)⟩

theorem elemSizeOf_pos {dtype : CnpyType} (h : dtype ≠ .Void) :
    0 < elemSizeOf dtype := by
  cases dtype <;> simp [elemSizeOf] at h ⊢

theorem elemSizeOf_lt (dtype : CnpyType) :
    elemSizeOf dtype < 18446744073709551616 := by
  cases dtype <;> simp [elemSizeOf]

deriving instance DecidableEq for Except

set_option maxRecDepth 100000 in
/-- C1 counterexample: saving a rank-1 array of two doubles and loading
it back loses the type metadata — the loaded array's dtype is `Void`
(the decoder never reads the type character; cnpy.cpp line 230 is
commented out, and the `NpArray` built in `load_the_npy_file` is given
no dtype), not `Double`. -/
theorem C1_counterexample :
    npy_load (npy_save_data none (List.replicate 16 7) .Double 8 [2] 119).2 =
      .ok { mData := some (List.replicate 16 7), mShape := [2], mElemSize := 8,
            mDataSize := 16, mIsFortranOrder := false, mDtype := .Void,
            mHasDataOwnership := true } ∧
    CnpyType.Void ≠ CnpyType.Double := by
  exact ⟨by decide, by decide⟩

/-- C1 (amended): for every supported type and every shape of rank 1-4
with `size_t` dimensions whose element count is below 2^32 (the save
path computes the element count in an `unsigned int` accumulator, so
larger arrays are truncated), saving a flat npy file and loading it
back reproduces the shape, the element size, the fortran-order flag
(always false) and the payload bytes byte-identically; the loaded dtype
field is always `Void` because the decoder discards the type code. -/
theorem C1_roundtrip (dtype : CnpyType) (shape data : List Nat)
    (hsupported : dtype ≠ .Void)
    (hrank1 : 1 ≤ shape.length) (hrank4 : shape.length ≤ 4)
    (hdims : ∀ d ∈ shape, d < 18446744073709551616)
    (hprod : shape.foldl (· * ·) 1 < 4294967296)
    (hdata : data.length = elemSizeOf dtype * shape.foldl (· * ·) 1) :
    npy_load (npy_save_data none data dtype (elemSizeOf dtype) shape 119).2 =
      .ok { mData := some data, mShape := shape,
            mElemSize := elemSizeOf dtype,
            mDataSize := elemSizeOf dtype * shape.foldl (· * ·) 1,
            mIsFortranOrder := false, mDtype := .Void,
            mHasDataOwnership := true } := by
  apply npy_load_of_save
  · intro hcontra
    rw [hcontra] at hrank1
    simp at hrank1
  · exact hrank4
  · exact hdims
  · exact elemSizeOf_lt dtype
  · exact elemSizeOf_pos hsupported
  · exact hprod
  · exact hdata

set_option maxRecDepth 100000 in
/-- C1 witness: a concrete 2×3 int8 array round-trips. -/
theorem C1_witness :
    (CnpyType.Int8 ≠ CnpyType.Void) ∧
    npy_load (npy_save_data none [1, 2, 3, 4, 5, 6] .Int8
        (elemSizeOf .Int8) [2, 3] 119).2 =
      .ok { mData := some [1, 2, 3, 4, 5, 6], mShape := [2, 3],
            mElemSize := elemSizeOf .Int8,
            mDataSize := elemSizeOf .Int8 * ([2, 3] : List Nat).foldl (· * ·) 1,
            mIsFortranOrder := false, mDtype := .Void,
            mHasDataOwnership := true } := by
  refine ⟨by decide, C1_roundtrip .Int8 [2, 3] [1, 2, 3, 4, 5, 6]
    (by decide) (by decide) (by decide) (by decide) (by decide) (by decide)⟩

/-- C5: on generated header text whose descr value begins with the
big-endian marker `>` (byte 62), decoding fails hard in both paths —
`parseDictHeader` (archive path) throws its explicit big-endian error
and `parse_npy_header` (flat path) fails its `assert(littleEndian)` —
while a first character `<` (60) or `|` (124) is accepted and decoding
succeeds. -/
theorem C5_bigEndian (tc esN : Nat) (shape pad : List Nat)
    (pre payload : List Nat) (k : Nat)
    (htc : tc = 105 ∨ tc = 117 ∨ tc = 102 ∨ tc = 99 ∨ tc = 98 ∨ tc = 63)
    (hshape : shape ≠ [])
    (hpre : pre.length = 10)
    (hB : (mkDict [] 62 tc (decimal esN) (shapeBody shape)
      (List.replicate k 32)).length ≤ 254) :
    parseDictHeader (mkDict [123] 62 tc (decimal esN) (shapeBody shape) pad) =
      .error .bigEndian ∧
    parse_npy_header (pre ++ mkDict [123] 62 tc (decimal esN) (shapeBody shape)
      (List.replicate k 32 ++ [10]) ++ payload) = .error .assertEndian ∧
    (∀ e, e = 60 ∨ e = 124 →
      parseDictHeader (mkDict [123] e tc (decimal esN) (shapeBody shape) pad) =
        .ok ⟨esN, shape, false⟩ ∧
      parse_npy_header (pre ++ mkDict [123] e tc (decimal esN) (shapeBody shape)
        (List.replicate k 32 ++ [10]) ++ payload) =
        .ok (⟨esN, shape, false⟩, payload)) := by
  refine ⟨?_, ?_, ?_⟩
  · rw [parseDictHeader,
      parseDictCore_mkDict .bigEndian [123] 62 tc esN shape pad
        (by intro x hx; simpa using hx) (Or.inr (Or.inl rfl)) htc hshape]
    simp
  · rw [parse_npy_header_mkDict pre 62 tc esN shape k payload hpre
      (Or.inr (Or.inl rfl)) htc hshape hB]
    simp
  · intro e he2
    have he : e = 60 ∨ e = 62 ∨ e = 124 := by
      rcases he2 with rfl | rfl
      · exact Or.inl rfl
      · exact Or.inr (Or.inr rfl)
    have hne62 : e ≠ 62 := by
      rcases he2 with rfl | rfl <;> omega
    have hBe : (mkDict [] e tc (decimal esN) (shapeBody shape)
        (List.replicate k 32)).length ≤ 254 := by
      have hsame : (mkDict [] e tc (decimal esN) (shapeBody shape)
          (List.replicate k 32)).length =
          (mkDict [] 62 tc (decimal esN) (shapeBody shape)
            (List.replicate k 32)).length := by
        simp [mkDict]
      rw [hsame]
      exact hB
    constructor
    · rw [parseDictHeader,
        parseDictCore_mkDict .bigEndian [123] e tc esN shape pad
          (by intro x hx; simpa using hx) he htc hshape]
      rw [if_neg hne62]
    · rw [parse_npy_header_mkDict pre e tc esN shape k payload hpre
        he htc hshape hBe]
      rw [if_neg hne62]

set_option maxRecDepth 100000 in
/-- C5 witness at a concrete header (dtype `f8`, shape (2, 3)). -/
theorem C5_witness :
    parseDictHeader (mkDict [123] 62 102 (decimal 8) (shapeBody [2, 3]) []) =
      .error .bigEndian ∧
    parse_npy_header ([147, 78, 85, 77, 80, 89, 1, 0, 0, 0] ++
      mkDict [123] 62 102 (decimal 8) (shapeBody [2, 3])
        (List.replicate 9 32 ++ [10]) ++ []) = .error .assertEndian ∧
    (∀ e, e = 60 ∨ e = 124 →
      parseDictHeader (mkDict [123] e 102 (decimal 8) (shapeBody [2, 3]) []) =
        .ok ⟨8, [2, 3], false⟩ ∧
      parse_npy_header ([147, 78, 85, 77, 80, 89, 1, 0, 0, 0] ++
        mkDict [123] e 102 (decimal 8) (shapeBody [2, 3])
          (List.replicate 9 32 ++ [10]) ++ []) =
        .ok (⟨8, [2, 3], false⟩, [])) := by
  exact C5_bigEndian 102 8 [2, 3] [] [147, 78, 85, 77, 80, 89, 1, 0, 0, 0] [] 9
    (by decide) (by decide) (by decide) (by decide)

/-- One append-mode `npy_save_data` call on a file whose header parses,
written out as the source's cascade of checks followed by the
header-rewrite-and-append. -/
theorem npy_save_data_append_step (ex data : List Nat) (dtype : CnpyType)
    (es : Nat) (shape : List Nat) (ph : ParsedHeader) (r : List Nat)
    (hparse : parse_npy_header ex = .ok (ph, r)) :
    npy_save_data (some ex) data dtype es shape 97 =
      if ph.fortranOrder then (.error .assertFortran, some ex)
      else if ph.wordSize ≠ es then (.error .wordSizeMismatch, some ex)
      else if ph.shape.length ≠ shape.length then
        (.error .misdimensioned, some ex)
      else if trailingMismatch shape ph.shape then (.error .misshaped, some ex)
      else
        (.ok (), some
          ((create_npy_header dtype es
              (((ph.shape.headD 0 + shape.headD 0) % 18446744073709551616) ::
                ph.shape.tail)) ++
            ex.drop (create_npy_header dtype es
              (((ph.shape.headD 0 + shape.headD 0) % 18446744073709551616) ::
                ph.shape.tail)).length ++
            data.take (es * nelsU shape))) := by
  simp only [npy_save_data, hparse, ite_true]

/-- C2: appending data whose element size, rank, or some non-leading
dimension differs from the existing file's header fails (with the
word-size assertion, the misdimensioned throw, or the misshaped throw
respectively) before any byte is written: the file is unchanged. -/
theorem C2_append_mismatch (dtype0 dtype : CnpyType) (es0 es : Nat)
    (shape0 shape payload0 data : List Nat)
    (hshape0 : shape0 ≠ []) (hrank0 : shape0.length ≤ 4)
    (hdims0 : ∀ d ∈ shape0, d < 18446744073709551616)
    (hes0 : es0 < 18446744073709551616)
    (hmis : es ≠ es0 ∨ shape.length ≠ shape0.length ∨
      trailingMismatch shape shape0 = true) :
    ∃ err, npy_save_data
      (some (create_npy_header dtype0 es0 shape0 ++ payload0))
      data dtype es shape 97 =
      (.error err, some (create_npy_header dtype0 es0 shape0 ++ payload0)) := by
  have hparse := parse_npy_header_create dtype0 es0 shape0 payload0
    hshape0 hrank0 hdims0 hes0
  rw [npy_save_data_append_step _ _ _ _ _ _ _ hparse]
  simp only [Bool.false_eq_true, if_false]
  by_cases h1 : es0 ≠ es
  · exact ⟨.wordSizeMismatch, by rw [if_pos h1]⟩
  · rw [if_neg h1]
    by_cases h2 : shape0.length ≠ shape.length
    · exact ⟨.misdimensioned, by rw [if_pos h2]⟩
    · rw [if_neg h2]
      have h3 : trailingMismatch shape shape0 = true := by
        rcases hmis with h | h | h
        · exact absurd (Ne.symm h) h1
        · exact absurd (Ne.symm h) h2
        · exact h
      exact ⟨.misshaped, by rw [if_pos h3]⟩

set_option maxRecDepth 100000 in
/-- C2 witness: appending int16 data shaped (1, 4) onto an existing
int8 file shaped (2, 3) is rejected with the file unchanged. -/
theorem C2_witness :
    ∃ err, npy_save_data
      (some (create_npy_header .Int8 1 [2, 3] ++ [1, 2, 3, 4, 5, 6]))
      [7, 7, 7, 7, 7, 7, 7, 7] .Int16 2 [1, 4] 97 =
      (.error err, some (create_npy_header .Int8 1 [2, 3] ++
        [1, 2, 3, 4, 5, 6])) := by
  exact C2_append_mismatch .Int8 .Int16 1 2 [2, 3] [1, 4]
    [1, 2, 3, 4, 5, 6] [7, 7, 7, 7, 7, 7, 7, 7]
    (by decide) (by decide) (by decide) (by decide) (by decide)

/-! ### Archive-side lemmas -/

theorem drop10_preamble (a b : Nat) (X : List Nat) :
    (([147, 78, 85, 77, 80, 89, 1, 0, a, b] : List Nat) ++ X).drop 10 = X := rfl

theorem getD8_preamble (a b : Nat) (X : List Nat) :
    (([147, 78, 85, 77, 80, 89, 1, 0, a, b] : List Nat) ++ X).getD 8 0 = a := rfl

theorem getD9_preamble (a b : Nat) (X : List Nat) :
    (([147, 78, 85, 77, 80, 89, 1, 0, a, b] : List Nat) ++ X).getD 9 0 = b := rfl

theorem dict2_length_le (dtype : CnpyType) (es : Nat) (shape : List Nat)
    (hrank : shape.length ≤ 4)
    (hdims : ∀ d ∈ shape, d < 18446744073709551616)
    (hes : es < 18446744073709551616) :
    (dictBase dtype es shape).length + npyPad dtype es shape ≤ 193 := by
  have h1 := decimal_length_le hes
  have h2 := shapeBody_length_le hrank hdims
  have h3 := npyPad_pos dtype es shape
  rw [dictBase_length]
  omega

theorem mkDict123_full_length (dtype : CnpyType) (es : Nat) (shape : List Nat) :
    (mkDict [123] 60 (map_type dtype) (decimal es) (shapeBody shape)
      (List.replicate (npyPad dtype es shape - 1) 32 ++ [10])).length =
    (dictBase dtype es shape).length + npyPad dtype es shape := by
  have h3 := npyPad_pos dtype es shape
  rw [← dict_eq_mkDict]
  simp only [List.length_append, List.length_replicate, List.length_cons,
    List.length_nil]
  omega

/-- The archive-path loader on an entry written by this library. -/
theorem load_the_npy_file_zip_create (dtype : CnpyType) (es : Nat)
    (shape data : List Nat)
    (hshape : shape ≠ []) (hrank : shape.length ≤ 4)
    (hdims : ∀ d ∈ shape, d < 18446744073709551616)
    (hes : es < 18446744073709551616) (hespos : 0 < es)
    (hdata : data.length = es * shape.foldl (· * ·) 1) :
    load_the_npy_file_zip (create_npy_header dtype es shape ++ data) =
      .ok { mData := some data, mShape := shape, mElemSize := es,
            mDataSize := es * shape.foldl (· * ·) 1, mIsFortranOrder := false,
            mDtype := .Void, mHasDataOwnership := true } := by
  have hlt := dict2_length_le dtype es shape hrank hdims hes
  rw [create_npy_header_decomp, List.append_assoc]
  rw [load_the_npy_file_zip]
  rw [if_neg (by simp)]
  rw [getD8_preamble, getD9_preamble, drop10_preamble]
  have hds : ((dictBase dtype es shape).length + npyPad dtype es shape) %
        65536 % 256 +
      256 * (((dictBase dtype es shape).length + npyPad dtype es shape) %
        65536 / 256 % 256) =
      (dictBase dtype es shape).length + npyPad dtype es shape := by
    omega
  rw [hds]
  have hmdlen := mkDict123_full_length dtype es shape
  rw [if_neg (by
    rw [List.length_append, hmdlen]
    omega)]
  have htake : (mkDict [123] 60 (map_type dtype) (decimal es) (shapeBody shape)
        (List.replicate (npyPad dtype es shape - 1) 32 ++ [10]) ++ data).take
      ((dictBase dtype es shape).length + npyPad dtype es shape) =
      mkDict [123] 60 (map_type dtype) (decimal es) (shapeBody shape)
        (List.replicate (npyPad dtype es shape - 1) 32 ++ [10]) := by
    rw [← hmdlen]
    exact List.take_left _ _
  rw [htake]
  have hdrop : (mkDict [123] 60 (map_type dtype) (decimal es) (shapeBody shape)
        (List.replicate (npyPad dtype es shape - 1) 32 ++ [10]) ++ data).drop
      ((dictBase dtype es shape).length + npyPad dtype es shape) = data := by
    rw [← hmdlen]
    exact List.drop_left _ _
  rw [hdrop]
  rw [parseDictHeader, parseDictCore_mkDict .bigEndian [123] 60 (map_type dtype)
    es shape _ (by intro x hx; simpa using hx) (Or.inl rfl)
    (map_type_mem dtype) hshape]
  have hsize : (NpArr.mkShaped shape es CnpyType.Void false []).size =
      es * shape.foldl (· * ·) 1 := by
    simp only [NpArr.size, NpArr.mkShaped]
    exact foldl_mul_init shape es
  show (if data.length < (NpArr.mkShaped shape es CnpyType.Void false []).size
      then (Except.error Err.readError : Except Err NpArr)
      else Except.ok { NpArr.mkShaped shape es CnpyType.Void false [] with
        mData := some (data.take
          (NpArr.mkShaped shape es CnpyType.Void false []).size) }) = _
  rw [hsize, if_neg (by omega), ← hdata, List.take_length]
  simp [NpArr.mkShaped, foldl_mul_init shape es, hdata]

theorem stripLast4_append_npy (s : String) :
    stripLast4 (s ++ ".npy") = .ok s := by
  have hlen : (s ++ ".npy").length = s.length + 4 := by
    rw [String.length_append]
    rfl
  have htake : (s ++ ".npy").take s.length = s := by
    rw [String.take_eq]
    rw [show (s ++ ".npy").data = s.data ++ ".npy".data from
      String.data_append s ".npy"]
    rw [show s.length = s.data.length from rfl, List.take_left]
  rw [stripLast4]
  simp only [hlen]
  rw [if_pos (by omega : 4 ≤ s.length + 4)]
  simp only [Nat.add_sub_cancel]
  rw [if_neg (by omega : ¬ s.length + 4 < s.length), htake]

theorem eraseIdx_at_append (A1 : Archive) (x : String × List Nat)
    (A2 : Archive) :
    (A1 ++ x :: A2).eraseIdx A1.length = A1 ++ A2 := by
  induction A1 with
  | nil => rfl
  | cons a t ih => simpa using ih

theorem findIdx_key_at_append (A1 : Archive) (x : String × List Nat)
    (A2 : Archive) (fname : String)
    (h1 : ∀ p ∈ A1, p.1 ≠ fname) (hx : x.1 = fname) :
    (A1 ++ x :: A2).findIdx? (fun e => e.1 = fname) = some A1.length := by
  induction A1 with
  | nil => simp [List.findIdx?_cons, hx]
  | cons a t ih =>
    have ha : ¬ (a.1 = fname) := h1 a (by simp)
    rw [List.cons_append, List.findIdx?_cons]
    simp [ha, ih (fun p hp => h1 p (by simp [hp]))]

theorem npzLoadAll_append (xs ys : Archive) (acc : List (String × NpArr)) :
    npzLoadAll (xs ++ ys) acc =
      match npzLoadAll xs acc with
      | .error e => .error e
      | .ok acc2 => npzLoadAll ys acc2 := by
  induction xs generalizing acc with
  | nil => rfl
  | cons p t ih =>
    obtain ⟨n, bytes⟩ := p
    rw [List.cons_append, npzLoadAll, npzLoadAll]
    cases stripLast4 n with
    | error e => rfl
    | ok key =>
      cases load_the_npy_file_zip bytes with
      | error e => rfl
      | ok arr => exact ih _

theorem npzLoadAll_no_key : ∀ (xs : Archive) (acc : List (String × NpArr))
    (key : String),
    (∀ p ∈ xs, ∃ k arr, stripLast4 p.1 = .ok k ∧ k ≠ key ∧
      load_the_npy_file_zip p.2 = .ok arr) →
    (∀ q ∈ acc, q.1 ≠ key) →
    ∃ res, npzLoadAll xs acc = .ok res ∧ ∀ q ∈ res, q.1 ≠ key
  | [], acc, key, _, hacc => ⟨acc, rfl, hacc⟩
  | (n, bytes) :: t, acc, key, hxs, hacc => by
    obtain ⟨k, arr, hstrip, hk, hload⟩ := hxs (n, bytes) (by simp)
    have hstrip2 : stripLast4 n = .ok k := hstrip
    have hload2 : load_the_npy_file_zip bytes = .ok arr := hload
    rw [npzLoadAll, hstrip2, hload2]
    refine npzLoadAll_no_key t _ key (fun p hp => hxs p (by simp [hp])) ?_
    intro q hq
    by_cases hany : acc.any (fun p => p.1 = k) = true
    · rw [if_pos hany] at hq
      exact hacc q hq
    · rw [if_neg hany] at hq
      rcases List.mem_append.mp hq with h | h
      · exact hacc q h
      · have hq2 : q = (k, arr) := by simpa using h
        rw [hq2]
        exact hk

/-- `npz_save_data` in append mode on an archive already holding an entry
named `name + ".npy"`: the old entry is deleted and the new one is
appended at the end of the index. -/
theorem npz_save_replaces (A1 A2 : Archive) (old : List Nat) (name : String)
    (data : List Nat) (dtype : CnpyType) (es : Nat) (shape : List Nat)
    (h1 : ∀ p ∈ A1, p.1 ≠ name ++ ".npy") :
    npz_save_data (some (A1 ++ (name ++ ".npy", old) :: A2)) name data
        dtype es shape 97 =
      .ok ((A1 ++ A2) ++ [(name ++ ".npy",
        create_npy_header dtype es shape ++
          data.take (shape.foldl (· * ·) es))]) := by
  simp only [npz_save_data, Option.getD_some]
  rw [if_neg (by decide : ¬ (97 : Nat) = 119)]
  rw [findIdx_key_at_append A1 (name ++ ".npy", old) A2 (name ++ ".npy")
    h1 rfl]
  show Except.ok ((A1 ++ (name ++ ".npy", old) :: A2).eraseIdx A1.length ++
      [(name ++ ".npy", create_npy_header dtype es shape ++
        data.take (shape.foldl (· * ·) es))]) = _
  rw [eraseIdx_at_append]

/-- C9: writing an array under a name that already exists in the archive
(append mode) deletes the prior entry before inserting the new one: the
saved archive holds exactly one entry named `name + ".npy"`, carrying the
second write's bytes, and loading the whole archive yields exactly one
result entry for that key — the last one of the result list — whose data
is the second write's data (all other entries produce keys distinct from
`name`).  The byte-count bound `es * product < 2^31` keeps the source's
`const int dataSize` (cnpy.cpp line 609) — and every `size_t`
accumulation of the product — exact, so the whole payload is stored. -/
theorem C9_archive_replace (A1 A2 : Archive) (old : List Nat) (name : String)
    (dtype : CnpyType) (es : Nat) (shape data : List Nat)
    (hshape : shape ≠ []) (hrank : shape.length ≤ 4)
    (hdims : ∀ d ∈ shape, d < 18446744073709551616)
    (hes : es < 18446744073709551616) (hespos : 0 < es)
    (hbytes : es * shape.foldl (· * ·) 1 < 2147483648)
    (hdata : data.length = es * shape.foldl (· * ·) 1)
    (h1 : ∀ p ∈ A1, p.1 ≠ name ++ ".npy")
    (hothers : ∀ p ∈ A1 ++ A2, ∃ k arr, stripLast4 p.1 = .ok k ∧ k ≠ name ∧
      load_the_npy_file_zip p.2 = .ok arr) :
    npz_save_data (some (A1 ++ (name ++ ".npy", old) :: A2)) name data
        dtype es shape 97 =
      .ok ((A1 ++ A2) ++
        [(name ++ ".npy", create_npy_header dtype es shape ++ data)]) ∧
    ∃ rest, npz_load (some ((A1 ++ A2) ++
        [(name ++ ".npy", create_npy_header dtype es shape ++ data)])) =
        .ok (rest ++ [(name,
          { mData := some data, mShape := shape, mElemSize := es,
            mDataSize := es * shape.foldl (· * ·) 1,
            mIsFortranOrder := false, mDtype := .Void,
            mHasDataOwnership := true })]) ∧
      ∀ q ∈ rest, q.1 ≠ name := by
  constructor
  · rw [npz_save_replaces A1 A2 old name data dtype es shape h1]
    rw [foldl_mul_init shape es, ← hdata, List.take_length]
  · obtain ⟨res0, hres0, hnokey⟩ :=
      npzLoadAll_no_key (A1 ++ A2) [] name hothers (by simp)
    refine ⟨res0, ?_, hnokey⟩
    show npzLoadAll ((A1 ++ A2) ++
      [(name ++ ".npy", create_npy_header dtype es shape ++ data)]) [] = _
    rw [npzLoadAll_append, hres0]
    show npzLoadAll
      [(name ++ ".npy", create_npy_header dtype es shape ++ data)] res0 = _
    rw [npzLoadAll, stripLast4_append_npy name,
      load_the_npy_file_zip_create dtype es shape data hshape hrank hdims
        hes hespos hdata]
    have hany : res0.any (fun p => p.1 = name) = false := by
      rw [List.any_eq_false]
      intro p hp
      simp [hnokey p hp]
    show npzLoadAll [] (if res0.any (fun p => p.1 = name) = true then res0
      else res0 ++ [(name,
        { mData := some data, mShape := shape, mElemSize := es,
          mDataSize := es * shape.foldl (· * ·) 1,
          mIsFortranOrder := false, mDtype := .Void,
          mHasDataOwnership := true })]) = _
    rw [hany]
    rw [if_neg (by decide : ¬ false = true)]
    rfl

theorem C9_witness :
    npz_save_data (some ([] ++ ("a" ++ ".npy", [0]) :: [])) "a" [5]
        CnpyType.Int8 1 [1] 97 =
      .ok (([] ++ []) ++
        [("a" ++ ".npy", create_npy_header CnpyType.Int8 1 [1] ++ [5])]) ∧
    ∃ rest, npz_load (some (([] ++ []) ++
        [("a" ++ ".npy", create_npy_header CnpyType.Int8 1 [1] ++ [5])])) =
        .ok (rest ++ [("a",
          { mData := some [5], mShape := [1], mElemSize := 1,
            mDataSize := 1 * List.foldl (· * ·) 1 [1],
            mIsFortranOrder := false, mDtype := .Void,
            mHasDataOwnership := true })]) ∧
      ∀ q ∈ rest, q.1 ≠ "a" :=
  C9_archive_replace [] [] [0] "a" CnpyType.Int8 1 [1] [5]
    (by decide) (by decide) (by decide) (by decide) (by decide) (by decide)
    (by decide) (by simp) (by simp)

/-! ### The append sequence (C4) -/

theorem zip_self_any_ne (t : List Nat) :
    (t.zip t).any (fun p => !(p.1 == p.2)) = false := by
  induction t with
  | nil => rfl
  | cons x xs ih => simp [ih]

theorem trailingMismatch_same_tail (b a : Nat) (t : List Nat) :
    trailingMismatch (b :: t) (a :: t) = false := by
  simp only [trailingMismatch, List.drop_one, List.tail_cons]
  exact zip_self_any_ne t

/-- A successful append: leading dimensions add (in `size_t`), the
header is re-encoded for the grown shape and written over the start of
the old content, and the payload is appended at the end. -/
theorem npy_append_ok (dtype : CnpyType) (es a b : Nat) (t : List Nat)
    (payload data : List Nat)
    (hrank : t.length + 1 ≤ 4)
    (hdims : ∀ d ∈ a :: t, d < 18446744073709551616)
    (hes : es < 18446744073709551616)
    (hsum : a + b < 18446744073709551616)
    (hprod : (b :: t).foldl (· * ·) 1 < 4294967296)
    (hdata : data.length = es * (b :: t).foldl (· * ·) 1) :
    npy_save_data (some (create_npy_header dtype es (a :: t) ++ payload))
        data dtype es (b :: t) 97 =
      (.ok (), some (create_npy_header dtype es ((a + b) :: t) ++
        (create_npy_header dtype es (a :: t) ++ payload).drop
          (create_npy_header dtype es ((a + b) :: t)).length ++ data)) := by
  have hparse := parse_npy_header_create dtype es (a :: t) payload
    (by simp) (by simpa using hrank) hdims hes
  rw [npy_save_data_append_step _ _ _ _ _ _ _ hparse]
  simp only [Bool.false_eq_true, if_false, ne_eq, List.length_cons,
    not_true_eq_false, trailingMismatch_same_tail, List.headD_cons,
    List.tail_cons]
  rw [Nat.mod_eq_of_lt hsum]
  rw [nelsU_eq hprod, ← hdata, List.take_length]

/-- Iterated appends with identical trailing dimensions, under the side
condition that the re-encoded header keeps its byte length over the
whole growth range: the leading dimensions add up and the payloads
concatenate in order. -/
theorem npy_append_run (dtype : CnpyType) (es : Nat) (t : List Nat) :
    ∀ (L : List (Nat × List Nat)) (a : Nat) (payload : List Nat),
    t.length + 1 ≤ 4 →
    (∀ d ∈ t, d < 18446744073709551616) →
    es < 18446744073709551616 →
    a + (L.map Prod.fst).sum < 18446744073709551616 →
    (∀ p ∈ L, (p.1 :: t).foldl (· * ·) 1 < 4294967296 ∧
      p.2.length = es * ((p.1 :: t).foldl (· * ·) 1)) →
    (∀ s, a ≤ s → s ≤ a + (L.map Prod.fst).sum →
      (create_npy_header dtype es (s :: t)).length =
        (create_npy_header dtype es (a :: t)).length) →
    L.foldl (fun st p => (npy_save_data st p.2 dtype es (p.1 :: t) 97).2)
        (some (create_npy_header dtype es (a :: t) ++ payload)) =
      some (create_npy_header dtype es ((a + (L.map Prod.fst).sum) :: t) ++
        (payload ++ (L.map Prod.snd).flatten))
  | [], a, payload, _, _, _, _, _, _ => by simp
  | (b, d) :: rest, a, payload, hrank, hdimt, hes, htot, hsteps, hstable => by
    have htot2 : a + (b + ((rest.map Prod.fst).sum)) <
        18446744073709551616 := by simpa using htot
    have hdims : ∀ x ∈ a :: t, x < 18446744073709551616 := by
      intro x hx
      rcases List.mem_cons.mp hx with h | h
      · omega
      · exact hdimt x h
    obtain ⟨hprod, hdata⟩ := hsteps (b, d) (by simp)
    rw [List.foldl_cons]
    rw [npy_append_ok dtype es a b t payload d hrank hdims hes
      (by omega) hprod hdata]
    have hlen : (create_npy_header dtype es ((a + b) :: t)).length =
        (create_npy_header dtype es (a :: t)).length :=
      hstable (a + b) (by omega)
        (by simp only [List.map_cons, List.sum_cons]; omega)
    rw [hlen, List.drop_left]
    have hstable2 : ∀ s, a + b ≤ s → s ≤ (a + b) + (rest.map Prod.fst).sum →
        (create_npy_header dtype es (s :: t)).length =
          (create_npy_header dtype es ((a + b) :: t)).length := by
      intro s hs1 hs2
      rw [hstable s (by omega)
        (by simp only [List.map_cons, List.sum_cons]; omega), hlen]
    have hrun := npy_append_run dtype es t rest (a + b) (payload ++ d) hrank
      hdimt hes (by omega) (fun p hp => hsteps p (by simp [hp])) hstable2
    simp only [List.append_assoc]
    rw [hrun]
    have hsum2 : a + b + (rest.map Prod.fst).sum =
        a + ((b, d) :: rest |>.map Prod.fst).sum := by
      simp only [List.map_cons, List.sum_cons]
      omega
    rw [hsum2]
    simp

set_option maxRecDepth 100000 in
/-- C4 counterexample: appending `[1,999,99,99]` of Int8 to a file
holding `[9,999,99,99]` of Int8 grows the header from 80 to 96 bytes;
the rewritten header overwrites the first 16 payload bytes, so the
final file is NOT the grown header followed by the concatenation of the
two appended payloads. -/
theorem C4_counterexample :
    (create_npy_header CnpyType.Int8 1 [9, 999, 99, 99]).length = 80 ∧
    (create_npy_header CnpyType.Int8 1 [10, 999, 99, 99]).length = 96 ∧
    npy_save_data
        (some (create_npy_header CnpyType.Int8 1 [9, 999, 99, 99] ++
          List.replicate 88120791 7))
        (List.replicate 9791199 3) CnpyType.Int8 1 [1, 999, 99, 99] 97 =
      (.ok (), some (create_npy_header CnpyType.Int8 1 [10, 999, 99, 99] ++
        (List.replicate 88120791 7).drop 16 ++ List.replicate 9791199 3)) ∧
    create_npy_header CnpyType.Int8 1 [10, 999, 99, 99] ++
        (List.replicate 88120791 7).drop 16 ++ List.replicate 9791199 3 ≠
      create_npy_header CnpyType.Int8 1 [10, 999, 99, 99] ++
        List.replicate 88120791 7 ++ List.replicate 9791199 3 := by
  refine ⟨by decide, by decide, ?_, ?_⟩
  · rw [npy_append_ok CnpyType.Int8 1 9 1 [999, 99, 99]
      (List.replicate 88120791 7) (List.replicate 9791199 3)
      (by decide) (by decide) (by decide) (by decide) (by decide)
      (by rw [List.length_replicate]; decide)]
    rw [show (9 + 1 : Nat) = 10 from rfl]
    rw [show (create_npy_header CnpyType.Int8 1 [10, 999, 99, 99]).length =
      (create_npy_header CnpyType.Int8 1 [9, 999, 99, 99]).length + 16 from
      by decide]
    rw [List.drop_append 16]
  · intro h
    have hl := congrArg List.length h
    simp only [List.length_append, List.length_drop,
      List.length_replicate] at hl
    omega

/-- C4 (amended): for a sequence of appends with identical trailing
dimensions to a fresh npy file — under the added side condition that
the re-encoded header keeps its byte length over the whole range of
partial leading-dimension sums — the final file is the header for the
summed leading dimension followed by the bytewise concatenation of all
appended payloads in order, and decoding it yields the summed leading
dimension.  (Without the header-length side condition the property is
false: see the 80-to-96-byte counterexample.) -/
theorem C4_append_sequence (dtype : CnpyType) (es a0 : Nat) (t : List Nat)
    (data0 : List Nat) (L : List (Nat × List Nat))
    (hrank : t.length + 1 ≤ 4)
    (hdimt : ∀ d ∈ t, d < 18446744073709551616)
    (hes : es < 18446744073709551616)
    (htotal : a0 + (L.map Prod.fst).sum < 18446744073709551616)
    (hprod0 : (a0 :: t).foldl (· * ·) 1 < 4294967296)
    (hdata0 : data0.length = es * ((a0 :: t).foldl (· * ·) 1))
    (hsteps : ∀ p ∈ L, (p.1 :: t).foldl (· * ·) 1 < 4294967296 ∧
      p.2.length = es * ((p.1 :: t).foldl (· * ·) 1))
    (hstable : ∀ s, a0 ≤ s → s ≤ a0 + (L.map Prod.fst).sum →
      (create_npy_header dtype es (s :: t)).length =
        (create_npy_header dtype es (a0 :: t)).length) :
    L.foldl (fun st p => (npy_save_data st p.2 dtype es (p.1 :: t) 97).2)
        ((npy_save_data none data0 dtype es (a0 :: t) 119).2) =
      some (create_npy_header dtype es ((a0 + (L.map Prod.fst).sum) :: t) ++
        (data0 ++ (L.map Prod.snd).flatten)) ∧
    parse_npy_header
        (create_npy_header dtype es ((a0 + (L.map Prod.fst).sum) :: t) ++
          (data0 ++ (L.map Prod.snd).flatten)) =
      .ok (⟨es, (a0 + (L.map Prod.fst).sum) :: t, false⟩,
        data0 ++ (L.map Prod.snd).flatten) := by
  have hfile0 : (npy_save_data none data0 dtype es (a0 :: t) 119).2 =
      some (create_npy_header dtype es (a0 :: t) ++ data0) := by
    simp only [npy_save_data, ite_self]
    rw [nelsU_eq hprod0, ← hdata0, List.take_length]
  constructor
  · rw [hfile0]
    exact npy_append_run dtype es t L a0 data0 hrank hdimt hes htotal
      hsteps hstable
  · apply parse_npy_header_create
    · simp
    · simp only [List.length_cons]
      omega
    · intro d hd
      rcases List.mem_cons.mp hd with h | h
      · omega
      · exact hdimt d h
    · exact hes

set_option maxRecDepth 100000 in
theorem C4_witness :
    [(1, [8])].foldl
        (fun st p => (npy_save_data st p.2 CnpyType.Int8 1 (p.1 :: []) 97).2)
        ((npy_save_data none [7] CnpyType.Int8 1 (1 :: []) 119).2) =
      some (create_npy_header CnpyType.Int8 1
          ((1 + ([(1, [8])].map Prod.fst).sum) :: []) ++
        ([7] ++ ([(1, [8])].map Prod.snd).flatten)) ∧
    parse_npy_header
        (create_npy_header CnpyType.Int8 1
            ((1 + ([(1, [8])].map Prod.fst).sum) :: []) ++
          ([7] ++ ([(1, [8])].map Prod.snd).flatten)) =
      .ok (⟨1, (1 + ([(1, [8])].map Prod.fst).sum) :: [], false⟩,
        [7] ++ ([(1, [8])].map Prod.snd).flatten) :=
  C4_append_sequence CnpyType.Int8 1 1 [] [7] [(1, [8])]
    (by decide) (by simp) (by decide) (by decide) (by decide) (by decide)
    (by decide)
    (by
      intro s h1 h2
      simp only [List.map_cons, List.map_nil, List.sum_cons,
        List.sum_nil] at h2
      have hs : s = 1 ∨ s = 2 := by omega
      rcases hs with h | h <;> subst h <;> decide)
